import Mathlib

/-!
# Verification of the fitronix relational storage engine

Shallow embedding of the SQLite storage layer of the fitronix workout
tracker: schema rows, repository operations over sessions, exercises,
sets and the exercise library, the transaction mechanism, the JSON
backup facility, and the lazy connection manager.

Timestamps are modelled as natural numbers (milliseconds since epoch).
The ISO-8601 UTC strings used by the source are in an order-preserving
bijection with these counts, and the source only ever compares equal
formats, so nothing is lost. Weights are modelled as rationals.
-/

set_option maxHeartbeats 1600000

/-- Row of the `workout_sessions` table (schema.ts, CREATE_TABLES_SQL). -/
structure SessionRow where
  id : String
  date : Nat
  totalTime : Option Int
  createdAt : Nat
  updatedAt : Nat
deriving Repr, DecidableEq

/-- Row of the `workout_exercises` table. `maxWeight` is the derived
column; `exerciseId` is the nullable reference into the library. -/
structure WorkoutExerciseRow where
  id : String
  sessionId : String
  exerciseId : Option String
  exerciseName : String
  bodyPart : String
  maxWeight : Option Rat
  order : Int
deriving Repr, DecidableEq

/-- Row of the `sets` table, with the CHECK constraints
`weight >= 0` and `reps >= 1` enforced at insert time. -/
structure SetRow where
  id : String
  exerciseId : String
  weight : Rat
  reps : Int
  completedAt : Nat
  order : Int
deriving Repr, DecidableEq

/-- Row of the `exercises` library table, subject to
`UNIQUE(name, bodyPart)`. -/
structure ExerciseRow where
  id : String
  name : String
  bodyPart : String
  videoUrl : Option String
  createdAt : Nat
  lastUsed : Option Nat
deriving Repr, DecidableEq

/-- The logical contents of the database: the five tables created by
`CREATE_TABLES_SQL`. -/
structure Store where
  workout_sessions : List SessionRow
  workout_exercises : List WorkoutExerciseRow
  sets : List SetRow
  exercises : List ExerciseRow
  schema_version : List (Nat × Nat)
deriving Repr, DecidableEq

/-- The empty store (all tables empty). -/
def Store.empty : Store := ⟨[], [], [], [], []⟩

/-!
## Exercise library repository (ExerciseLibraryStorage.ts)
-/

/-- The error message thrown by `createExercise` and `updateExercise`
when the `UNIQUE(name, bodyPart)` constraint fires. -/
def constraintMessage (name bodyPart : String) : String :=
  "Exercise \x22" ++ name ++ "\x22 already exists in body part \x22" ++
    bodyPart ++ "\x22"

/-- SQL-level errors surfaced by the embedded engine. -/
inductive SqlError where
  | unique (detail : String)
  | foreignKey (detail : String)
  | check (detail : String)
deriving Repr, DecidableEq

/-- The message string carried by a raised SQL error, as matched by
the `includes` checks in the repositories. -/
def sqlErrorMessage : SqlError → String
  | .unique d => "UNIQUE constraint failed: " ++ d
  | .foreignKey d => "FOREIGN KEY constraint failed: " ++ d
  | .check d => "CHECK constraint failed: " ++ d

/-- Row insert into `exercises`: rejected when the primary key or the
`UNIQUE(name, bodyPart)` constraint is violated (exact TEXT equality,
the columns carry no collation). -/
def insertExerciseRow (st : Store) (r : ExerciseRow) : Except SqlError Store :=
  if st.exercises.any (fun e => e.id = r.id) then
    .error (.unique "exercises.id")
  else if st.exercises.any (fun e => e.name = r.name ∧ e.bodyPart = r.bodyPart) then
    .error (.unique "exercises.name, exercises.bodyPart")
  else
    .ok { st with exercises := st.exercises ++ [r] }

/-- Lookup used by `getExerciseById`: first row with the given id. -/
def getExerciseById (st : Store) (id : String) : Option ExerciseRow :=
  st.exercises.find? (fun e => e.id = id)

/-- `ExerciseLibraryStorage.createExercise`: inserts a fresh row with
no `lastUsed`; a UNIQUE failure is remapped to the descriptive
constraint-violation message naming the colliding name and body part. -/
def createExercise (st : Store) (name bodyPart : String)
    (videoUrl : Option String) (id : String) (createdAt : Nat) :
    Except String Store :=
  match insertExerciseRow st ⟨id, name, bodyPart, videoUrl, createdAt, none⟩ with
  | .error (.unique _) => .error (constraintMessage name bodyPart)
  | .error e => .error (sqlErrorMessage e)
  | .ok st2 => .ok st2

/-- Partial update payload for `updateExercise` (fields left `none`
are not touched, mirroring the `!== undefined` guards). -/
structure ExerciseUpdate where
  name : Option String
  bodyPart : Option String
  videoUrl : Option String
  lastUsed : Option Nat
deriving Repr, DecidableEq

/-- Applies an `ExerciseUpdate` to a single row. -/
def applyExerciseUpdate (upd : ExerciseUpdate) (e : ExerciseRow) : ExerciseRow :=
  { e with
    name := upd.name.getD e.name
    bodyPart := upd.bodyPart.getD e.bodyPart
    videoUrl := match upd.videoUrl with | some v => some v | none => e.videoUrl
    lastUsed := match upd.lastUsed with | some v => some v | none => e.lastUsed }

/-- `ExerciseLibraryStorage.updateExercise`: rejects with the
not-found message when the id is absent; a UNIQUE collision with a
different row is remapped to the constraint-violation message built
from the effective new name and body part. -/
def updateExercise (st : Store) (id : String) (upd : ExerciseUpdate) :
    Except String Store :=
  match getExerciseById st id with
  | none => .error ("Exercise not found: " ++ id)
  | some existing =>
    let newName := upd.name.getD existing.name
    let newBodyPart := upd.bodyPart.getD existing.bodyPart
    if st.exercises.any
        (fun e => e.id ≠ id ∧ e.name = newName ∧ e.bodyPart = newBodyPart) then
      .error (constraintMessage newName newBodyPart)
    else
      .ok { st with exercises :=
        st.exercises.map (fun e => if e.id = id then applyExerciseUpdate upd e else e) }

/-- `ExerciseLibraryStorage.deleteExercise`: rejects with the
not-found message when the id is absent, otherwise removes the row
(no cascade into `workout_exercises`). -/
def deleteExercise (st : Store) (id : String) : Except String Store :=
  match getExerciseById st id with
  | none => .error ("Exercise not found: " ++ id)
  | some _ => .ok { st with exercises := st.exercises.filter (fun e => e.id ≠ id) }

/-- `ExerciseLibraryStorage.updateLastUsed`: a bare UPDATE with no
existence check; with an absent id it matches zero rows and resolves
successfully. -/
def updateLastUsed (st : Store) (id : String) (timestamp : Nat) :
    Except String Store :=
  .ok { st with exercises :=
    st.exercises.map (fun e =>
      if e.id = id then { e with lastUsed := some timestamp } else e) }

/-- No two library rows share a (name, bodyPart) pair. -/
def uniquePairs (st : Store) : Prop :=
  st.exercises.Pairwise (fun a b => ¬(a.name = b.name ∧ a.bodyPart = b.bodyPart))

/-- `sub` occurs inside `s` as a contiguous substring. -/
def containsStr (s sub : String) : Prop :=
  ∃ a b, s = a ++ sub ++ b

/-!
## Connection handle and transaction mechanism (DatabaseManager)

The single database handle with at most one active transaction.
Statements read and write the active draft when a transaction is open
and the committed contents otherwise; COMMIT publishes the draft and
ROLLBACK discards it.
-/

/-- The database handle: committed contents plus the optional draft of
an open transaction. -/
structure Db where
  committed : Store
  txn : Option Store
deriving Repr, DecidableEq

/-- The contents visible to statements: the draft while a transaction
is open, the committed contents otherwise. -/
def Db.view (db : Db) : Store := db.txn.getD db.committed

/-- BEGIN TRANSACTION: opens a draft seeded with the committed
contents. -/
def Db.begin (db : Db) : Db := { db with txn := some db.committed }

/-- COMMIT: publishes the draft. -/
def Db.commit (db : Db) : Db :=
  match db.txn with
  | some st => ⟨st, none⟩
  | none => db

/-- ROLLBACK: discards the draft. -/
def Db.rollback (db : Db) : Db := { db with txn := none }

/-- Writes the given contents to the draft when a transaction is open
and directly to the committed contents otherwise. -/
def Db.setDraft (db : Db) (st : Store) : Db :=
  match db.txn with
  | some _ => { db with txn := some st }
  | none => { db with committed := st }

/-!
## Workout session repository (WorkoutSessionStorage.ts)
-/

/-- Row insert into `workout_sessions`: primary-key uniqueness. -/
def insertSessionRow (st : Store) (r : SessionRow) : Except SqlError Store :=
  if st.workout_sessions.any (fun s => s.id = r.id) then
    .error (.unique "workout_sessions.id")
  else
    .ok { st with workout_sessions := st.workout_sessions ++ [r] }

/-- Row insert into `workout_exercises`: primary-key uniqueness plus
the two foreign keys (`sessionId` into `workout_sessions`, nullable
`exerciseId` into `exercises`). -/
def insertWorkoutExerciseRow (st : Store) (r : WorkoutExerciseRow) :
    Except SqlError Store :=
  if st.workout_exercises.any (fun e => e.id = r.id) then
    .error (.unique "workout_exercises.id")
  else if ¬ st.workout_sessions.any (fun s => s.id = r.sessionId) then
    .error (.foreignKey "workout_exercises.sessionId")
  else
    match r.exerciseId with
    | some eid =>
      if st.exercises.any (fun e => e.id = eid) then
        .ok { st with workout_exercises := st.workout_exercises ++ [r] }
      else
        .error (.foreignKey "workout_exercises.exerciseId")
    | none => .ok { st with workout_exercises := st.workout_exercises ++ [r] }

/-- Row insert into `sets`: primary-key uniqueness, the CHECK
constraints `weight >= 0` and `reps >= 1`, and the foreign key into
`workout_exercises`. -/
def insertSetRow (st : Store) (r : SetRow) : Except SqlError Store :=
  if st.sets.any (fun s => s.id = r.id) then
    .error (.unique "sets.id")
  else if r.weight < 0 then
    .error (.check "weight >= 0")
  else if r.reps < 1 then
    .error (.check "reps >= 1")
  else if ¬ st.workout_exercises.any (fun e => e.id = r.exerciseId) then
    .error (.foreignKey "sets.exerciseId")
  else
    .ok { st with sets := st.sets ++ [r] }

/-- Input shape of a set inside `createSession` and `updateSession`
payloads (ids are regenerated by the repository and therefore not part
of the input). -/
structure SetInput where
  weight : Rat
  reps : Int
  completedAt : Nat
  order : Int
deriving Repr, DecidableEq

/-- Input shape of an exercise inside `createSession` and
`updateSession` payloads. -/
structure ExerciseInput where
  exerciseId : Option String
  exerciseName : String
  bodyPart : String
  sets : List SetInput
  order : Int
deriving Repr, DecidableEq

/-- Input shape of a `createSession` payload. -/
structure SessionInput where
  date : Nat
  totalTime : Option Int
  exercises : List ExerciseInput
deriving Repr, DecidableEq

/-- Derived `maxWeight` column: `Math.max` over the set weights, NULL
when the exercise has no sets. -/
def maxWeightOf (sets : List SetInput) : Option Rat :=
  match sets with
  | [] => none
  | s :: rest => some (rest.foldl (fun m x => max m x.weight) s.weight)

/-- Inserts the generated set rows of one exercise, consuming fresh
ids `uuid k, uuid (k+1), ...` in order. -/
def insertSetsFor (uuid : Nat → String) (exId : String) :
    Store → Nat → List SetInput → Except SqlError (Store × Nat)
  | st, k, [] => .ok (st, k)
  | st, k, s :: rest =>
    match insertSetRow st ⟨uuid k, exId, s.weight, s.reps, s.completedAt, s.order⟩ with
    | .error e => .error e
    | .ok st2 => insertSetsFor uuid exId st2 (k + 1) rest

/-- Inserts the generated exercise rows (each with its derived
`maxWeight`) and their set rows, consuming fresh ids in order. -/
def insertExercisesFor (uuid : Nat → String) (sessionId : String) :
    Store → Nat → List ExerciseInput → Except SqlError (Store × Nat)
  | st, k, [] => .ok (st, k)
  | st, k, ex :: rest =>
    match insertWorkoutExerciseRow st
        ⟨uuid k, sessionId, ex.exerciseId, ex.exerciseName, ex.bodyPart,
          maxWeightOf ex.sets, ex.order⟩ with
    | .error e => .error e
    | .ok st2 =>
      match insertSetsFor uuid (uuid k) st2 (k + 1) ex.sets with
      | .error e => .error e
      | .ok (st3, k3) => insertExercisesFor uuid sessionId st3 k3 rest

/-- The insert sequence run by `createSession` between BEGIN and
COMMIT: the session row stamped with `createdAt = updatedAt = now`,
then every exercise row and set row. -/
def createSessionInserts (st : Store) (inp : SessionInput) (uuid : Nat → String)
    (now : Nat) : Except SqlError Store :=
  match insertSessionRow st ⟨uuid 0, inp.date, inp.totalTime, now, now⟩ with
  | .error e => .error e
  | .ok st1 =>
    match insertExercisesFor uuid (uuid 0) st1 1 inp.exercises with
    | .error e => .error e
    | .ok (st2, _) => .ok st2

/-- `WorkoutSessionStorage.createSession`: BEGIN, the nested inserts,
COMMIT on success and ROLLBACK on any insert failure. The id supply
`uuid` stands for `generateUUID` and `now` for `getCurrentTimestamp`. -/
def createSession (db : Db) (inp : SessionInput) (uuid : Nat → String)
    (now : Nat) : Except String Unit × Db :=
  let db1 := Db.begin db
  match createSessionInserts db1.view inp uuid now with
  | .error e => (.error (sqlErrorMessage e), Db.rollback db1)
  | .ok st => (.ok (), Db.commit (Db.setDraft db1 st))

/-- Lookup used by `getSessionById`. -/
def getSessionRowById (st : Store) (id : String) : Option SessionRow :=
  st.workout_sessions.find? (fun s => s.id = id)

/-- DELETE FROM workout_exercises WHERE sessionId = id, with the
`ON DELETE CASCADE` of `sets.exerciseId` removing the owned set rows. -/
def deleteExercisesOfSession (st : Store) (id : String) : Store :=
  let removed := st.workout_exercises.filter (fun e => e.sessionId = id)
  { st with
    workout_exercises := st.workout_exercises.filter (fun e => e.sessionId ≠ id)
    sets := st.sets.filter (fun s => ¬ removed.any (fun e => e.id = s.exerciseId)) }

/-- DELETE FROM workout_sessions WHERE id = id, with the
`ON DELETE CASCADE` chain removing the owned exercise rows and their
set rows. -/
def cascadeDeleteSession (st : Store) (id : String) : Store :=
  let st2 := deleteExercisesOfSession st id
  { st2 with workout_sessions := st2.workout_sessions.filter (fun s => s.id ≠ id) }

/-- `WorkoutSessionStorage.deleteSession`: rejects with the not-found
message when the id is absent, otherwise deletes the session row and
lets the cascade remove every owned exercise and set row. -/
def deleteSession (st : Store) (id : String) : Except String Store :=
  match getSessionRowById st id with
  | none => .error ("Session not found: " ++ id)
  | some _ => .ok (cascadeDeleteSession st id)

/-- ASCII lower-casing, the folding performed by the SQLite NOCASE
collation (letters outside A-Z are left untouched). -/
def asciiLower (c : Char) : Char :=
  if 'A' ≤ c ∧ c ≤ 'Z' then Char.ofNat (c.toNat + 32) else c

/-- Equality under the NOCASE collation. -/
def nocaseEq (a b : String) : Bool :=
  a.toList.map asciiLower = b.toList.map asciiLower

/-- SQL MAX over a list of values (NULLs already dropped): NULL on the
empty list. -/
def listMaxRat : List Rat → Option Rat
  | [] => none
  | x :: rest => some (rest.foldl max x)

/-- `WorkoutSessionStorage.getPreviousMaxWeight`: SELECT MAX(maxWeight)
over the `workout_exercises` rows whose name matches under NOCASE;
NULL maxWeight values are ignored by MAX and an all-NULL or empty
selection yields NULL. -/
def getPreviousMaxWeight (st : Store) (exerciseName : String) : Option Rat :=
  listMaxRat ((st.workout_exercises.filter
    (fun e => nocaseEq e.exerciseName exerciseName)).filterMap
      (fun e => e.maxWeight))

/-- `getUpdatedTimestamp` (utils/storage.ts): takes the current clock
reading and, when it ties the stored timestamp, bumps it by one
millisecond. -/
def getUpdatedTimestamp (oldTimestamp now : Nat) : Nat :=
  if now = oldTimestamp then now + 1 else now

/-- Partial update payload for `updateSession` (fields left `none`
are not touched, mirroring the `!== undefined` guards). -/
structure SessionUpdate where
  date : Option Nat
  totalTime : Option Int
  exercises : Option (List ExerciseInput)
deriving Repr, DecidableEq

/-- `WorkoutSessionStorage.updateSession`: rejects with the not-found
message when the id is absent; otherwise BEGIN, full replacement of
the exercise collection when supplied (delete then reinsert, the
cascade removing the old sets), the field updates with the advanced
`updatedAt` from `getUpdatedTimestamp`, then COMMIT (ROLLBACK on any
insert failure). -/
def updateSession (db : Db) (id : String) (upd : SessionUpdate)
    (uuid : Nat → String) (now : Nat) : Except String Unit × Db :=
  match getSessionRowById db.view id with
  | none => (.error ("Session not found: " ++ id), db)
  | some existing =>
    let updatedAt := getUpdatedTimestamp existing.updatedAt now
    let db1 := Db.begin db
    let afterExercises : Except SqlError Store :=
      match upd.exercises with
      | none => .ok db1.view
      | some exs =>
        (insertExercisesFor uuid id (deleteExercisesOfSession db1.view id) 0 exs).map
          (fun p => p.1)
    match afterExercises with
    | .error e => (.error (sqlErrorMessage e), Db.rollback db1)
    | .ok st2 =>
      let st3 := { st2 with workout_sessions := st2.workout_sessions.map (fun s =>
        if s.id = id then
          { s with
            date := upd.date.getD s.date
            totalTime := match upd.totalTime with
              | some t => some t
              | none => s.totalTime
            updatedAt := updatedAt }
        else s) }
      (.ok (), Db.commit (Db.setDraft db1 st3))

/-!
## LIKE pattern matching (searchExercises)

SQLite LIKE over ASCII-case-insensitive comparison, once with the
`ESCAPE` clause used by `ExerciseLibraryStorage.searchExercises` and
once without it as in `SqliteExerciseLibraryStorage.searchExercises`.
-/

/-- SQLite LIKE with `ESCAPE` set to backslash: `%` matches any
sequence, `_` matches one character, backslash makes the following
character literal, and plain characters compare ASCII
case-insensitively. The whole string must be consumed. -/
def likeMatch : List Char → List Char → Bool
  | [], s => s.isEmpty
  | c :: p, s =>
    if c = '%' then
      likeMatch p s ||
        (match s with
         | [] => false
         | _ :: t => likeMatch (c :: p) t)
    else if c = '\\' then
      match p with
      | [] => false
      | e :: p2 =>
        match s with
        | [] => false
        | d :: s2 => (asciiLower e = asciiLower d) && likeMatch p2 s2
    else if c = '_' then
      match s with
      | [] => false
      | _ :: s2 => likeMatch p s2
    else
      match s with
      | [] => false
      | d :: s2 => (asciiLower c = asciiLower d) && likeMatch p s2
termination_by p s => (p.length, s.length)

/-- SQLite LIKE without an `ESCAPE` clause: backslash is an ordinary
character. -/
def likeMatchNoEsc : List Char → List Char → Bool
  | [], s => s.isEmpty
  | c :: p, s =>
    if c = '%' then
      likeMatchNoEsc p s ||
        (match s with
         | [] => false
         | _ :: t => likeMatchNoEsc (c :: p) t)
    else if c = '_' then
      match s with
      | [] => false
      | _ :: s2 => likeMatchNoEsc p s2
    else
      match s with
      | [] => false
      | d :: s2 => (asciiLower c = asciiLower d) && likeMatchNoEsc p s2
termination_by p s => (p.length, s.length)

/-- The wildcard escaping applied by
`ExerciseLibraryStorage.searchExercises`: backslash first, then `%`
and `_`, each prefixed with a backslash. -/
def escLike : List Char → List Char
  | [] => []
  | c :: rest =>
    if c = '\\' ∨ c = '%' ∨ c = '_' then '\\' :: c :: escLike rest
    else c :: escLike rest

/-- The pattern `%escaped%` built by
`ExerciseLibraryStorage.searchExercises`. -/
def searchPattern (query : String) : List Char :=
  '%' :: (escLike query.toList ++ ['%'])

/-- `ExerciseLibraryStorage.searchExercises`: rows whose name matches
the escaped LIKE pattern (the lastUsed ordering of the SELECT does not
change which rows qualify and is omitted). -/
def searchExercises (st : Store) (query : String) : List ExerciseRow :=
  st.exercises.filter (fun e => likeMatch (searchPattern query) e.name.toList)

/-- The unescaped pattern `%query%` built by
`SqliteExerciseLibraryStorage.searchExercises`. -/
def sqliteSearchPattern (query : String) : List Char :=
  '%' :: (query.toList ++ ['%'])

/-- `SqliteExerciseLibraryStorage.searchExercises`: same SELECT but
with the raw query spliced into the pattern and no `ESCAPE` clause. -/
def sqliteSearchExercises (st : Store) (query : String) : List ExerciseRow :=
  st.exercises.filter (fun e => likeMatchNoEsc (sqliteSearchPattern query) e.name.toList)

/-!
## JSON import (DatabaseManager.importFromJson)

`JSON.parse` and the `CapacitorSQLite.importFromJson` plugin call are
platform externals; they enter the model as the oracle `parseError`
(the `SyntaxError`, when the input does not parse) and the function
`importOp` (the structural import the plugin performs on the store).
-/

/-- `DatabaseManager.importFromJson`: the parse validation runs before
any transaction; the plugin import runs between `beginTransaction` and
`commitTransaction`, with `rollbackTransaction` on failure. The second
component of the result records whether a transaction was opened. -/
def importFromJson (db : Db) (parseError : Option String)
    (importOp : Store → Except String Store) :
    (Except String Unit × Db) × Bool :=
  match parseError with
  | some msg => ((.error ("Invalid JSON format: " ++ msg), db), false)
  | none =>
    let db1 := Db.begin db
    match importOp db1.view with
    | .ok st => ((.ok (), Db.commit (Db.setDraft db1 st)), true)
    | .error e =>
      ((.error ("Failed to import database: " ++ e), Db.rollback db1), true)

/-!
## Lazy connection management (DatabaseManager.initialize / getConnection)

Cooperative single-threaded concurrency: each overlapping caller is a
small state machine whose atomic segments are the code between two
`await` points, and a schedule is the list of callers stepped in
order. `openCount` counts invocations of
`sqliteConnection.createConnection`, the act of opening the underlying
store. Initialization is modelled as succeeding, matching the happy
path the claim quantifies over.

The `getConn` caller follows `getConnection`: the guard over `db` and
`isInitialized`, then either the fast return, awaiting the stored
in-flight promise, or storing `initialize()` as the in-flight promise
(whose synchronous prefix reaches `createConnection`). The `initCall`
caller follows a direct `initialize()` invocation, which consults only
the `isInitialized` flag, never the stored promise.
-/

/-- The kind of an overlapping caller. -/
inductive CallKind where
  | getConn
  | initCall
deriving Repr, DecidableEq

/-- Program counter of a caller, one value per atomic segment. -/
inductive CPc where
  | start
  | waiting
  | ownConn
  | ownPost
  | ownFin
  | dirConn
  | dirPost
  | done
  | failed
deriving Repr, DecidableEq

/-- State of the manager together with every overlapping caller. -/
structure MgrState where
  dbSet : Bool
  isInit : Bool
  prom : Bool
  initDone : Bool
  openCount : Nat
  kind : Nat → CallKind
  pc : Nat → CPc

/-- Updates the program counter of one caller. -/
def MgrState.setPc (s : MgrState) (i : Nat) (p : CPc) : MgrState :=
  { s with pc := Function.update s.pc i p }

/-- One atomic segment of caller `i` (no-op when the caller is not at
a runnable segment, e.g. still awaiting an unresolved promise). -/
def mgrStep (s : MgrState) (i : Nat) : MgrState :=
  match s.kind i, s.pc i with
  | .getConn, .start =>
    if s.dbSet && s.isInit then
      s.setPc i .done
    else if s.prom then
      s.setPc i .waiting
    else
      { s.setPc i .ownConn with prom := true, openCount := s.openCount + 1 }
  | .getConn, .waiting =>
    if s.initDone then
      s.setPc i (if s.dbSet then .done else .failed)
    else s
  | .getConn, .ownConn =>
    { s.setPc i .ownPost with dbSet := true }
  | .getConn, .ownPost =>
    { s.setPc i .ownFin with isInit := true, initDone := true }
  | .getConn, .ownFin =>
    { s.setPc i (if s.dbSet then .done else .failed) with prom := false }
  | .initCall, .start =>
    if s.isInit && s.dbSet then
      s.setPc i .done
    else
      { s.setPc i .dirConn with openCount := s.openCount + 1 }
  | .initCall, .dirConn =>
    { s.setPc i .dirPost with dbSet := true }
  | .initCall, .dirPost =>
    { s.setPc i .done with isInit := true }
  | _, _ => s

/-- Runs a schedule (a list of caller indices) from a state. -/
def mgrRun (s : MgrState) (sched : List Nat) : MgrState :=
  sched.foldl mgrStep s

/-- The uninitialized manager with the given family of callers, all at
their first segment. -/
def mgrInit (kind : Nat → CallKind) : MgrState :=
  ⟨false, false, false, false, 0, kind, fun _ => .start⟩

/-!
## Backup document (exportToJson / importFromJson round-trip)

Modelled from the spec: the actual serialization lives in the external
`CapacitorSQLite.exportToJson` / `importFromJson` plugin, absent from
the repository source; per the spec the backup document is one JSON
value containing the full logical contents of all five tables plus a
format/version marker, and import replaces the store contents with the
document contents.
-/

/-- A JSON value. -/
inductive JValue where
  | jnull
  | jbool (b : Bool)
  | jstr (s : String)
  | jnum (q : Rat)
  | jarr (xs : List JValue)
  | jobj (fields : List (String × JValue))

/-- Reads a natural-number timestamp back from a JSON number. -/
def jNat? : JValue → Option Nat
  | .jnum q => if q.den = 1 ∧ 0 ≤ q.num then some q.num.toNat else none
  | _ => none

/-- Reads an integer back from a JSON number. -/
def jInt? : JValue → Option Int
  | .jnum q => if q.den = 1 then some q.num else none
  | _ => none

/-- Reads a rational back from a JSON number. -/
def jRat? : JValue → Option Rat
  | .jnum q => some q
  | _ => none

/-- Reads a string back. -/
def jStr? : JValue → Option String
  | .jstr s => some s
  | _ => none

/-- Encodes a nullable column. -/
def jOpt {α} (f : α → JValue) : Option α → JValue
  | none => .jnull
  | some a => f a

/-- Decodes a nullable column. -/
def jOpt? {α} (f : JValue → Option α) : JValue → Option (Option α)
  | .jnull => some none
  | v => (f v).map some

/-- Modelled from the spec: one `workout_sessions` row in the backup
document. -/
def encodeSessionRow (r : SessionRow) : JValue :=
  .jarr [.jstr r.id, .jnum r.date, jOpt (fun n => .jnum n) r.totalTime,
    .jnum r.createdAt, .jnum r.updatedAt]

/-- Decoder for `encodeSessionRow`. -/
def decodeSessionRow : JValue → Option SessionRow
  | .jarr [a, b, c, d, e] => do
    let id ← jStr? a
    let date ← jNat? b
    let totalTime ← jOpt? jInt? c
    let createdAt ← jNat? d
    let updatedAt ← jNat? e
    some ⟨id, date, totalTime, createdAt, updatedAt⟩
  | _ => none

/-- Modelled from the spec: one `workout_exercises` row in the backup
document. -/
def encodeWorkoutExerciseRow (r : WorkoutExerciseRow) : JValue :=
  .jarr [.jstr r.id, .jstr r.sessionId, jOpt (fun s => .jstr s) r.exerciseId,
    .jstr r.exerciseName, .jstr r.bodyPart, jOpt (fun q => .jnum q) r.maxWeight,
    .jnum r.order]

/-- Decoder for `encodeWorkoutExerciseRow`. -/
def decodeWorkoutExerciseRow : JValue → Option WorkoutExerciseRow
  | .jarr [a, b, c, d, e, f, g] => do
    let id ← jStr? a
    let sessionId ← jStr? b
    let exerciseId ← jOpt? jStr? c
    let exerciseName ← jStr? d
    let bodyPart ← jStr? e
    let maxWeight ← jOpt? jRat? f
    let order ← jInt? g
    some ⟨id, sessionId, exerciseId, exerciseName, bodyPart, maxWeight, order⟩
  | _ => none

/-- Modelled from the spec: one `sets` row in the backup document. -/
def encodeSetRow (r : SetRow) : JValue :=
  .jarr [.jstr r.id, .jstr r.exerciseId, .jnum r.weight, .jnum r.reps,
    .jnum r.completedAt, .jnum r.order]

/-- Decoder for `encodeSetRow`. -/
def decodeSetRow : JValue → Option SetRow
  | .jarr [a, b, c, d, e, f] => do
    let id ← jStr? a
    let exerciseId ← jStr? b
    let weight ← jRat? c
    let reps ← jInt? d
    let completedAt ← jNat? e
    let order ← jInt? f
    some ⟨id, exerciseId, weight, reps, completedAt, order⟩
  | _ => none

/-- Modelled from the spec: one library `exercises` row in the backup
document. -/
def encodeExerciseRow (r : ExerciseRow) : JValue :=
  .jarr [.jstr r.id, .jstr r.name, .jstr r.bodyPart,
    jOpt (fun s => .jstr s) r.videoUrl, .jnum r.createdAt,
    jOpt (fun n => .jnum n) r.lastUsed]

/-- Decoder for `encodeExerciseRow`. -/
def decodeExerciseRow : JValue → Option ExerciseRow
  | .jarr [a, b, c, d, e, f] => do
    let id ← jStr? a
    let name ← jStr? b
    let bodyPart ← jStr? c
    let videoUrl ← jOpt? jStr? d
    let createdAt ← jNat? e
    let lastUsed ← jOpt? jNat? f
    some ⟨id, name, bodyPart, videoUrl, createdAt, lastUsed⟩
  | _ => none

/-- Modelled from the spec: one `schema_version` row in the backup
document. -/
def encodeVersionRow (r : Nat × Nat) : JValue :=
  .jarr [.jnum r.1, .jnum r.2]

/-- Decoder for `encodeVersionRow`. -/
def decodeVersionRow : JValue → Option (Nat × Nat)
  | .jarr [a, b] => do
    let v ← jNat? a
    let t ← jNat? b
    some (v, t)
  | _ => none

/-- Decodes a JSON array elementwise, failing when any element fails. -/
def decodeList {α} (f : JValue → Option α) : List JValue → Option (List α)
  | [] => some []
  | x :: xs =>
    match f x, decodeList f xs with
    | some a, some rest => some (a :: rest)
    | _, _ => none

/-- Modelled from the spec: `exportToJson` serializes the entire store
(all five tables) into one self-describing JSON document with a
format/version marker. -/
def exportDoc (st : Store) : JValue :=
  .jobj [
    ("formatVersion", .jnum 1),
    ("workout_sessions", .jarr (st.workout_sessions.map encodeSessionRow)),
    ("workout_exercises", .jarr (st.workout_exercises.map encodeWorkoutExerciseRow)),
    ("sets", .jarr (st.sets.map encodeSetRow)),
    ("exercises", .jarr (st.exercises.map encodeExerciseRow)),
    ("schema_version", .jarr (st.schema_version.map encodeVersionRow))]

/-- First field with the given key in a JSON object. -/
def jLookup (fields : List (String × JValue)) (k : String) : Option JValue :=
  (fields.find? (fun f => f.1 = k)).map (fun f => f.2)

/-- Decodes one table from a backup document field. -/
def decodeTable {α} (f : JValue → Option α)
    (fields : List (String × JValue)) (k : String) : Option (List α) :=
  match jLookup fields k with
  | some (.jarr xs) => decodeList f xs
  | _ => none

/-- Modelled from the spec: the structural import the plugin performs
on a valid backup document, replacing the store contents with the
document contents; any malformed piece makes the whole import fail. -/
def importDoc : JValue → Option Store
  | .jobj fields =>
    match jLookup fields "formatVersion" with
    | some (.jnum v) =>
      if v = 1 then do
        let ss ← decodeTable decodeSessionRow fields "workout_sessions"
        let we ← decodeTable decodeWorkoutExerciseRow fields "workout_exercises"
        let se ← decodeTable decodeSetRow fields "sets"
        let ex ← decodeTable decodeExerciseRow fields "exercises"
        let sv ← decodeTable decodeVersionRow fields "schema_version"
        some ⟨ss, we, se, ex, sv⟩
      else none
    | _ => none
  | _ => none

/-- The plugin import as an operation on the store, as passed to
`importFromJson`. -/
def importDocOp (doc : JValue) : Store → Except String Store :=
  fun _ => match importDoc doc with
    | some st => .ok st
    | none => .error "ImportFromJson: import failed"

/-!
## Concrete fixtures used by witnesses and counterexamples
-/

/-- A library store holding one Bench Press entry. -/
def demoLib : Store :=
  { Store.empty with exercises := [⟨"ex1", "Bench Press", "chest", none, 0, none⟩] }

/-- Deterministic stand-in for the `generateUUID` supply. -/
def demoUuid : Nat → String := fun n => "u" ++ toString n

/-!
## C10, C5: library repository theorems
-/

/-- C10: for an id absent from the library, `updateLastUsed` resolves
successfully and leaves the store unchanged (the UPDATE matches zero
rows), while `updateExercise` and `deleteExercise` reject with the
not-found error for the same id. -/
theorem updateLastUsed_missing_id_noop (st : Store) (id : String) (ts : Nat)
    (h : ∀ e ∈ st.exercises, e.id ≠ id) :
    updateLastUsed st id ts = .ok st ∧
    (∀ upd, updateExercise st id upd = .error ("Exercise not found: " ++ id)) ∧
    deleteExercise st id = .error ("Exercise not found: " ++ id) := by
  have hfind : getExerciseById st id = none := by
    simp only [getExerciseById, List.find?_eq_none, decide_eq_true_eq]
    exact h
  refine ⟨?_, ?_, ?_⟩
  · have hmap : st.exercises.map
        (fun e => if e.id = id then { e with lastUsed := some ts } else e) =
        st.exercises := by
      rw [show st.exercises.map
          (fun e => if e.id = id then { e with lastUsed := some ts } else e) =
          st.exercises.map (fun a => a) from
        List.map_congr_left (fun e he => by simp [h e he])]
      exact List.map_id' st.exercises
    simp [updateLastUsed, hmap]
  · intro upd
    simp [updateExercise, hfind]
  · simp [deleteExercise, hfind]

/-- C10 witness at a concrete store and missing id. -/
theorem updateLastUsed_missing_id_noop_witness :
    updateLastUsed demoLib "nope" 5 = .ok demoLib ∧
    (∀ upd, updateExercise demoLib "nope" upd =
      .error ("Exercise not found: " ++ "nope")) ∧
    deleteExercise demoLib "nope" = .error ("Exercise not found: " ++ "nope") :=
  updateLastUsed_missing_id_noop demoLib "nope" 5 (by decide)

/-- C5: `createExercise` fails with the constraint-violation message
naming both the name and the body part whenever the (name, body-part)
pair already exists, and it preserves the pair-uniqueness invariant of
the library. -/
theorem createExercise_unique_pair (st : Store) (name bodyPart : String)
    (videoUrl : Option String) (id : String) (createdAt : Nat) :
    ((st.exercises.any (fun e => e.name = name ∧ e.bodyPart = bodyPart)) = true →
      createExercise st name bodyPart videoUrl id createdAt =
        .error (constraintMessage name bodyPart) ∧
      containsStr (constraintMessage name bodyPart) name ∧
      containsStr (constraintMessage name bodyPart) bodyPart) ∧
    (uniquePairs st → ∀ st2,
      createExercise st name bodyPart videoUrl id createdAt = .ok st2 →
      uniquePairs st2) := by
  constructor
  · intro hdup
    have hdup2 : ∃ x ∈ st.exercises, x.name = name ∧ x.bodyPart = bodyPart := by
      simpa using hdup
    refine ⟨?_, ?_, ?_⟩
    · unfold createExercise insertExerciseRow
      by_cases hid : ∃ x ∈ st.exercises, x.id = id
      · simp [hid]
      · simp [hid, hdup2]
    · exact ⟨"Exercise \x22",
        "\x22 already exists in body part \x22" ++ bodyPart ++ "\x22",
        by simp [constraintMessage, String.append_assoc]⟩
    · exact ⟨"Exercise \x22" ++ name ++ "\x22 already exists in body part \x22",
        "\x22", by simp [constraintMessage, String.append_assoc]⟩
  · intro huniq st2 hok
    unfold createExercise insertExerciseRow at hok
    by_cases hid : ∃ x ∈ st.exercises, x.id = id
    · simp [hid] at hok
    · by_cases hpair : ∃ x ∈ st.exercises, x.name = name ∧ x.bodyPart = bodyPart
      · simp [hid, hpair] at hok
      · simp [hid, hpair] at hok
        rw [← hok]
        unfold uniquePairs at huniq ⊢
        refine List.pairwise_append.mpr ⟨huniq, List.pairwise_singleton _ _, ?_⟩
        intro a ha b hb
        rw [List.mem_singleton] at hb
        subst hb
        push_neg at hpair
        exact fun h => hpair a ha h.1 h.2

/-- C5 witness: the duplicate Bench Press scenario from the spec plus
a successful insert of a distinct pair. -/
theorem createExercise_unique_pair_witness :
    (createExercise demoLib "Bench Press" "chest" none "ex2" 3 =
      .error (constraintMessage "Bench Press" "chest") ∧
      containsStr (constraintMessage "Bench Press" "chest") "Bench Press" ∧
      containsStr (constraintMessage "Bench Press" "chest") "chest") ∧
    uniquePairs { Store.empty with
      exercises := [⟨"ex1", "Bench Press", "chest", none, 0, none⟩,
                    ⟨"ex2", "Squat", "legs", none, 3, none⟩] } :=
  ⟨(createExercise_unique_pair demoLib "Bench Press" "chest" none "ex2" 3).1
      (by decide),
   (createExercise_unique_pair demoLib "Squat" "legs" none "ex2" 3).2
      (by unfold uniquePairs demoLib; decide)
      { Store.empty with
        exercises := [⟨"ex1", "Bench Press", "chest", none, 0, none⟩,
                      ⟨"ex2", "Squat", "legs", none, 3, none⟩] }
      (by rfl)⟩

/-!
## Helper lemmas about the insert loops
-/

/-- A successful `sets` insert appends exactly the given row. -/
theorem insertSetRow_ok {st st1 : Store} {r : SetRow}
    (h : insertSetRow st r = .ok st1) :
    st1 = { st with sets := st.sets ++ [r] } := by
  unfold insertSetRow at h
  split at h
  · exact absurd h (by simp)
  · split at h
    · exact absurd h (by simp)
    · split at h
      · exact absurd h (by simp)
      · split at h
        · exact absurd h (by simp)
        · injection h with h2
          exact h2.symm

/-- A successful `workout_sessions` insert appends exactly the given
row. -/
theorem insertSessionRow_ok {st st1 : Store} {r : SessionRow}
    (h : insertSessionRow st r = .ok st1) :
    st1 = { st with workout_sessions := st.workout_sessions ++ [r] } := by
  unfold insertSessionRow at h
  split at h
  · exact absurd h (by simp)
  · injection h with h2
    exact h2.symm

/-- A successful `workout_exercises` insert appends exactly the given
row. -/
theorem insertWorkoutExerciseRow_ok {st st1 : Store} {r : WorkoutExerciseRow}
    (h : insertWorkoutExerciseRow st r = .ok st1) :
    st1 = { st with workout_exercises := st.workout_exercises ++ [r] } := by
  unfold insertWorkoutExerciseRow at h
  split at h
  · exact absurd h (by simp)
  · split at h
    · exact absurd h (by simp)
    · split at h
      · split at h
        · injection h with h2
          exact h2.symm
        · exact absurd h (by simp)
      · injection h with h2
        exact h2.symm

/-- A successful set-insert loop only appends to the `sets` table:
one generated row per input set, all owned by the given exercise id. -/
theorem insertSetsFor_shape (uuid : Nat → String) (exId : String) :
    ∀ (sets : List SetInput) (st : Store) (k : Nat) (st2 : Store) (k2 : Nat),
      insertSetsFor uuid exId st k sets = .ok (st2, k2) →
      ∃ rows, st2 = { st with sets := st.sets ++ rows } ∧
        rows.length = sets.length ∧ ∀ r ∈ rows, r.exerciseId = exId := by
  intro sets
  induction sets with
  | nil =>
    intro st k st2 k2 h
    unfold insertSetsFor at h
    injection h with h1
    injection h1 with h1 h2
    refine ⟨[], ?_, by simp, by simp⟩
    rw [← h1, List.append_nil]
  | cons s rest ih =>
    intro st k st2 k2 h
    unfold insertSetsFor at h
    cases hrow : insertSetRow st ⟨uuid k, exId, s.weight, s.reps, s.completedAt, s.order⟩ with
    | error e => rw [hrow] at h; exact absurd h (by simp)
    | ok st1 =>
      rw [hrow] at h
      obtain ⟨rows, hshape, hlen, hmem⟩ := ih st1 (k + 1) st2 k2 h
      have h1 := insertSetRow_ok hrow
      subst h1
      obtain ⟨ws, we, se, ex, sv⟩ := st
      refine ⟨⟨uuid k, exId, s.weight, s.reps, s.completedAt, s.order⟩ :: rows, ?_, by simp [hlen], ?_⟩
      · rw [hshape]
        simp
      · intro r hr
        rcases List.mem_cons.mp hr with h | h
        · rw [h]
        · exact hmem r h

/-- A successful exercise-insert loop appends one exercise row per
input exercise, all owned by the given session id, plus their set
rows, and touches nothing else. -/
theorem insertExercisesFor_shape (uuid : Nat → String) (sessionId : String) :
    ∀ (exs : List ExerciseInput) (st : Store) (k : Nat) (st2 : Store) (k2 : Nat),
      insertExercisesFor uuid sessionId st k exs = .ok (st2, k2) →
      ∃ exRows setRows,
        st2 = { st with
          workout_exercises := st.workout_exercises ++ exRows,
          sets := st.sets ++ setRows } ∧
        exRows.length = exs.length ∧ ∀ r ∈ exRows, r.sessionId = sessionId := by
  intro exs
  induction exs with
  | nil =>
    intro st k st2 k2 h
    unfold insertExercisesFor at h
    injection h with h1
    injection h1 with h1 h2
    refine ⟨[], [], ?_, by simp, by simp⟩
    rw [← h1, List.append_nil, List.append_nil]
  | cons e rest ih =>
    intro st k st2 k2 h
    unfold insertExercisesFor at h
    cases hrow : insertWorkoutExerciseRow st
        ⟨uuid k, sessionId, e.exerciseId, e.exerciseName, e.bodyPart,
          maxWeightOf e.sets, e.order⟩ with
    | error er => rw [hrow] at h; exact absurd h (by simp)
    | ok st1 =>
      rw [hrow] at h
      dsimp only at h
      cases hsets : insertSetsFor uuid (uuid k) st1 (k + 1) e.sets with
      | error er => rw [hsets] at h; exact absurd h (by simp)
      | ok p =>
        obtain ⟨stA, kA⟩ := p
        rw [hsets] at h
        obtain ⟨exRows, setRows, hshape, hlen, hmem⟩ := ih stA kA st2 k2 h
        obtain ⟨rows1, hshape1, hlen1, hmem1⟩ :=
          insertSetsFor_shape uuid (uuid k) e.sets st1 (k + 1) stA kA hsets
        have h1 := insertWorkoutExerciseRow_ok hrow
        subst h1
        subst hshape1
        obtain ⟨ws, we, se, ex, sv⟩ := st
        refine ⟨⟨uuid k, sessionId, e.exerciseId, e.exerciseName, e.bodyPart,
          maxWeightOf e.sets, e.order⟩ :: exRows, rows1 ++ setRows, ?_, by simp [hlen], ?_⟩
        · rw [hshape]
          simp
        · intro r hr
          rcases List.mem_cons.mp hr with h | h
          · rw [h]
          · exact hmem r h

/-!
## C1: createSession atomicity
-/

/-- C1: `createSession` is atomic. When any nested insert fails, the
transaction is rolled back and the handle is exactly as before the
call (no session, exercise or set row from the call is retained); on
success the committed store extends the previous contents with
precisely the new session row, one exercise row per input exercise
(each owned by the new session) and their set rows. -/
theorem createSession_atomic (db : Db) (inp : SessionInput)
    (uuid : Nat → String) (now : Nat) (htxn : db.txn = none) :
    (∀ msg db2, createSession db inp uuid now = (.error msg, db2) → db2 = db) ∧
    (∀ db2, createSession db inp uuid now = (.ok (), db2) →
      db2.txn = none ∧
      ∃ exRows setRows,
        db2.committed = { db.committed with
          workout_sessions := db.committed.workout_sessions ++
            [⟨uuid 0, inp.date, inp.totalTime, now, now⟩],
          workout_exercises := db.committed.workout_exercises ++ exRows,
          sets := db.committed.sets ++ setRows } ∧
        exRows.length = inp.exercises.length ∧
        ∀ r ∈ exRows, r.sessionId = uuid 0) := by
  obtain ⟨c, t⟩ := db
  cases htxn
  constructor
  · intro msg db2 h
    unfold createSession at h
    dsimp only [Db.begin, Db.view, Option.getD] at h
    cases hins : createSessionInserts c inp uuid now with
    | ok stX => rw [hins] at h; exact absurd h (by simp)
    | error e =>
      rw [hins] at h
      have hdb : db2 = Db.rollback (Db.begin ⟨c, none⟩) := by
        have h2 := congrArg Prod.snd h
        simpa using h2.symm
      rw [hdb]
      rfl
  · intro db2 h
    unfold createSession at h
    dsimp only [Db.begin, Db.view, Option.getD] at h
    cases hins : createSessionInserts c inp uuid now with
    | error e => rw [hins] at h; exact absurd h (by simp)
    | ok stX =>
      rw [hins] at h
      have hdb : db2 = ⟨stX, none⟩ := by
        have h2 := congrArg Prod.snd h
        simpa [Db.commit, Db.setDraft, Db.begin] using h2.symm
      subst hdb
      refine ⟨rfl, ?_⟩
      unfold createSessionInserts at hins
      cases hrow : insertSessionRow c ⟨uuid 0, inp.date, inp.totalTime, now, now⟩ with
      | error e => rw [hrow] at hins; exact absurd hins (by simp)
      | ok st1 =>
        rw [hrow] at hins
        dsimp only at hins
        cases hexs : insertExercisesFor uuid (uuid 0) st1 1 inp.exercises with
        | error e => rw [hexs] at hins; exact absurd hins (by simp)
        | ok p =>
          obtain ⟨stA, kA⟩ := p
          rw [hexs] at hins
          dsimp only at hins
          injection hins with hins
          subst hins
          obtain ⟨exRows, setRows, hshape, hlen, hmem⟩ :=
            insertExercisesFor_shape uuid (uuid 0) inp.exercises st1 1 _ _ hexs
          have h1 := insertSessionRow_ok hrow
          subst h1
          obtain ⟨ws, we, se, ex, sv⟩ := c
          exact ⟨exRows, setRows, by rw [hshape], hlen, hmem⟩

/-- Session payload whose single set violates the `weight >= 0` CHECK
constraint. -/
def badInput : SessionInput :=
  ⟨100, none, [⟨none, "Bench Press", "chest", [⟨-1, 10, 100, 0⟩], 0⟩]⟩

/-- Valid session payload with one exercise and two sets. -/
def goodInput : SessionInput :=
  ⟨100, some 3600, [⟨none, "Bench Press", "chest",
    [⟨70, 10, 100, 0⟩, ⟨75, 8, 101, 1⟩], 0⟩]⟩

/-- C1 witness: the failing insert leaves the empty store untouched
and the valid insert commits with the transaction closed. -/
theorem createSession_atomic_witness :
    (createSession ⟨Store.empty, none⟩ badInput demoUuid 0).2 =
      ⟨Store.empty, none⟩ ∧
    (createSession ⟨Store.empty, none⟩ goodInput demoUuid 0).2.txn = none :=
  ⟨(createSession_atomic ⟨Store.empty, none⟩ badInput demoUuid 0 rfl).1
      "CHECK constraint failed: weight >= 0" _ (by rfl),
   ((createSession_atomic ⟨Store.empty, none⟩ goodInput demoUuid 0 rfl).2
      _ (by rfl)).1⟩

/-!
## C3: deleteSession cascade
-/

/-- A store holding one session with one exercise and one set. -/
def demoSessions : Store :=
  { Store.empty with
    workout_sessions := [⟨"s1", 10, none, 5, 5⟩],
    workout_exercises := [⟨"we1", "s1", none, "Bench Press", "chest", some 75, 0⟩],
    sets := [⟨"set1", "we1", 75, 10, 6, 0⟩] }

/-- C3: for a present id, `deleteSession` removes the session row,
every exercise row owned by it and every set row owned by those
exercises, leaving no exercise or set row referencing the deleted
session; for an absent id it rejects with the not-found error and the
store is unchanged. -/
theorem deleteSession_cascade (st : Store) (id : String) :
    (∀ r, getSessionRowById st id = some r →
      deleteSession st id = .ok (cascadeDeleteSession st id) ∧
      (∀ s ∈ (cascadeDeleteSession st id).workout_sessions, s.id ≠ id) ∧
      (∀ e ∈ (cascadeDeleteSession st id).workout_exercises, e.sessionId ≠ id) ∧
      (∀ x ∈ (cascadeDeleteSession st id).sets, ∀ e ∈ st.workout_exercises,
        e.sessionId = id → x.exerciseId ≠ e.id)) ∧
    (getSessionRowById st id = none →
      deleteSession st id = .error ("Session not found: " ++ id)) := by
  constructor
  · intro r hr
    refine ⟨by simp [deleteSession, hr], ?_, ?_, ?_⟩
    · intro s hs
      unfold cascadeDeleteSession deleteExercisesOfSession at hs
      simp only [List.mem_filter, decide_eq_true_eq] at hs
      exact hs.2
    · intro e he
      unfold cascadeDeleteSession deleteExercisesOfSession at he
      simp only [List.mem_filter, decide_eq_true_eq] at he
      exact he.2
    · intro x hx e he hesess heq
      unfold cascadeDeleteSession deleteExercisesOfSession at hx
      simp only [List.mem_filter, List.any_eq_true, decide_eq_true_eq,
        not_exists, not_and] at hx
      exact hx.2 e ⟨he, hesess⟩ heq.symm
  · intro hnone
    simp [deleteSession, hnone]

/-- C3 witness: the singleton-session store and a missing id. -/
theorem deleteSession_cascade_witness :
    deleteSession demoSessions "s1" =
      .ok (cascadeDeleteSession demoSessions "s1") ∧
    deleteSession demoSessions "zzz" =
      .error ("Session not found: " ++ "zzz") :=
  ⟨((deleteSession_cascade demoSessions "s1").1 ⟨"s1", 10, none, 5, 5⟩
      (by rfl)).1,
   (deleteSession_cascade demoSessions "zzz").2 (by rfl)⟩

/-!
## C7: updateSession and the last-modified timestamp
-/

/-- C7 counterexample: with the stored `updatedAt` at 5 and the clock
reading 3 (a clock that stepped backwards, or a row imported with a
later timestamp), `updateSession` writes `updatedAt = 3`, which is
less than the previous value: the code only guards against equality,
not against an earlier clock reading. -/
theorem updateSession_strict_advance_counterexample :
    (updateSession ⟨demoSessions, none⟩ "s1" ⟨none, none, none⟩ demoUuid
        3).2.committed.workout_sessions = [⟨"s1", 10, none, 5, 3⟩] ∧
    ¬ (5 : Nat) < 3 := by
  constructor
  · rfl
  · decide

/-- C7 amended: on a successful update the new `updatedAt` is
`getUpdatedTimestamp` of the previous value and the current clock
reading: it always differs from the previous value, and it is strictly
greater whenever the clock reading is at least the previous value (the
equal-reading tie is bumped by one millisecond). -/
theorem updateSession_advances_updatedAt (db : Db) (id : String)
    (upd : SessionUpdate) (uuid : Nat → String) (now : Nat) (r : SessionRow)
    (htxn : db.txn = none) (hr : getSessionRowById db.committed id = some r)
    (hok : (updateSession db id upd uuid now).1 = .ok ()) :
    ∀ s ∈ (updateSession db id upd uuid now).2.committed.workout_sessions,
      s.id = id →
      s.updatedAt = getUpdatedTimestamp r.updatedAt now ∧
      s.updatedAt ≠ r.updatedAt ∧
      (r.updatedAt ≤ now → r.updatedAt < s.updatedAt) := by
  have hts : getUpdatedTimestamp r.updatedAt now ≠ r.updatedAt ∧
      (r.updatedAt ≤ now → r.updatedAt < getUpdatedTimestamp r.updatedAt now) := by
    unfold getUpdatedTimestamp
    by_cases hnw : now = r.updatedAt
    · simp [hnw]
    · simp [hnw]
      omega
  obtain ⟨c, t⟩ := db
  cases htxn
  unfold updateSession at hok ⊢
  dsimp only [Db.view, Option.getD] at hok ⊢
  rw [hr] at hok ⊢
  dsimp only at hok ⊢
  cases hupd : upd.exercises with
  | none =>
    dsimp only [Db.begin, Db.view, Db.commit, Db.setDraft, Option.getD] at hok ⊢
    intro s hs hsid
    simp only [List.mem_map] at hs
    obtain ⟨orig, ho, hfo⟩ := hs
    by_cases hoid : orig.id = id
    · rw [← hfo, if_pos hoid]
      exact ⟨rfl, hts.1, hts.2⟩
    · rw [← hfo, if_neg hoid] at hsid
      exact absurd hsid hoid
  | some exs =>
    dsimp only [Db.begin, Db.view, Db.commit, Db.setDraft, Option.getD] at hok ⊢
    rw [hupd] at hok
    dsimp only at hok
    cases hins : insertExercisesFor uuid id (deleteExercisesOfSession c id) 0 exs with
    | error e =>
      rw [hins] at hok
      dsimp only [Except.map] at hok
      simp at hok
    | ok p =>
      obtain ⟨stA, kA⟩ := p
      dsimp only [Except.map]
      intro s hs hsid
      simp only [List.mem_map] at hs
      obtain ⟨orig, ho, hfo⟩ := hs
      by_cases hoid : orig.id = id
      · rw [← hfo, if_pos hoid]
        exact ⟨rfl, hts.1, hts.2⟩
      · rw [← hfo, if_neg hoid] at hsid
        exact absurd hsid hoid

/-- C7 witness: clock reading 7 against stored timestamp 5 advances
strictly. -/
theorem updateSession_advances_updatedAt_witness :
    (7 : Nat) = getUpdatedTimestamp 5 7 ∧ (7 : Nat) ≠ 5 ∧
    ((5 : Nat) ≤ 7 → 5 < 7) :=
  updateSession_advances_updatedAt ⟨demoSessions, none⟩ "s1" ⟨none, none, none⟩
    demoUuid 7 ⟨"s1", 10, none, 5, 5⟩ rfl (by rfl) (by rfl)
    ⟨"s1", 10, none, 5, 7⟩ (by decide) rfl

/-!
## C6: importFromJson validation and rollback
-/

/-- C6: a parse failure rejects with the invalid-format error before
any transaction is opened and leaves the handle untouched; a failure
of the structural import inside the transaction is rolled back, again
leaving the committed store exactly as before the call. -/
theorem importFromJson_validation (db : Db)
    (importOp : Store → Except String Store) (htxn : db.txn = none) :
    (∀ msg, importFromJson db (some msg) importOp =
      ((.error ("Invalid JSON format: " ++ msg), db), false)) ∧
    (∀ e, (importFromJson db none importOp).1.1 = .error e →
      (importFromJson db none importOp).1.2 = db ∧
      (importFromJson db none importOp).2 = true) := by
  obtain ⟨c, t⟩ := db
  cases htxn
  constructor
  · intro msg
    rfl
  · intro e he
    unfold importFromJson at he ⊢
    dsimp only [Db.begin, Db.view, Option.getD] at he ⊢
    cases hop : importOp c with
    | ok st =>
      rw [hop] at he
      exact absurd he (by simp)
    | error e2 =>
      exact ⟨rfl, rfl⟩

/-- C6 witness: a malformed document against the singleton store, and
a failing structural import rolled back against the same store. -/
theorem importFromJson_validation_witness :
    importFromJson ⟨demoSessions, none⟩ (some "Unexpected token")
        (fun s => .ok s) =
      ((.error ("Invalid JSON format: " ++ "Unexpected token"),
        ⟨demoSessions, none⟩), false) ∧
    ((importFromJson ⟨demoSessions, none⟩ none
        (fun _ => .error "import failed")).1.2 = ⟨demoSessions, none⟩ ∧
      (importFromJson ⟨demoSessions, none⟩ none
        (fun _ => .error "import failed")).2 = true) :=
  ⟨(importFromJson_validation ⟨demoSessions, none⟩ (fun s => .ok s) rfl).1
      "Unexpected token",
   (importFromJson_validation ⟨demoSessions, none⟩
      (fun _ => .error "import failed") rfl).2
      ("Failed to import database: " ++ "import failed") (by rfl)⟩

/-!
## C4: getPreviousMaxWeight
-/

/-- SQL MAX over two optional values (NULL is ignored). -/
def optMax : Option Rat → Option Rat → Option Rat
  | none, b => b
  | some x, none => some x
  | some x, some y => some (max x y)

/-- Folding `max` is computing the optional maximum of the tail. -/
theorem foldl_max_eq (a : Rat) (l : List Rat) :
    l.foldl max a = match listMaxRat l with
      | none => a
      | some b => max a b := by
  induction l generalizing a with
  | nil => rfl
  | cons c l ih =>
    simp only [listMaxRat, List.foldl_cons]
    rw [ih (max a c), ih c]
    cases h : listMaxRat l with
    | none => rfl
    | some b => simp [max_assoc]

/-- `listMaxRat` distributes over append through `optMax`. -/
theorem listMaxRat_append (l₁ l₂ : List Rat) :
    listMaxRat (l₁ ++ l₂) = optMax (listMaxRat l₁) (listMaxRat l₂) := by
  cases l₁ with
  | nil => cases l₂ <;> rfl
  | cons x l =>
    have h1 : listMaxRat ((x :: l) ++ l₂) = some ((l ++ l₂).foldl max x) := rfl
    have h2 : listMaxRat (x :: l) = some (l.foldl max x) := rfl
    rw [h1, h2, List.foldl_append, foldl_max_eq (l.foldl max x) l₂]
    cases h : listMaxRat l₂ with
    | none => rfl
    | some b => rfl

/-- `listMaxRat` on a cons through `optMax`. -/
theorem listMaxRat_cons (x : Rat) (l : List Rat) :
    listMaxRat (x :: l) = optMax (some x) (listMaxRat l) := by
  simpa using listMaxRat_append [x] l

/-- The fold of `max` bounds its seed and every element. -/
theorem foldl_max_le (x : Rat) (l : List Rat) :
    x ≤ l.foldl max x ∧ ∀ w ∈ l, w ≤ l.foldl max x := by
  induction l generalizing x with
  | nil => simp
  | cons c l ih =>
    obtain ⟨h1, h2⟩ := ih (max x c)
    simp only [List.foldl_cons]
    refine ⟨le_trans (le_max_left x c) h1, ?_⟩
    intro w hw
    rcases List.mem_cons.mp hw with h | h
    · rw [h]
      exact le_trans (le_max_right x c) h1
    · exact h2 w h

/-- The fold of `max` is the seed or one of the elements. -/
theorem foldl_max_mem (x : Rat) (l : List Rat) :
    l.foldl max x = x ∨ l.foldl max x ∈ l := by
  induction l generalizing x with
  | nil => exact Or.inl rfl
  | cons c l ih =>
    simp only [List.foldl_cons]
    rcases ih (max x c) with h | h
    · rcases max_choice x c with hc | hc
      · exact Or.inl (by rw [h, hc])
      · exact Or.inr (List.mem_cons.mpr (Or.inl (by rw [h, hc])))
    · exact Or.inr (List.mem_cons.mpr (Or.inr h))

/-- `listMaxRat` returns an element that bounds the whole list. -/
theorem listMaxRat_is_max (l : List Rat) (m : Rat)
    (hm : listMaxRat l = some m) : m ∈ l ∧ ∀ w ∈ l, w ≤ m := by
  cases l with
  | nil => exact absurd hm (by simp [listMaxRat])
  | cons x l =>
    simp only [listMaxRat, Option.some.injEq] at hm
    subst hm
    obtain ⟨h1, h2⟩ := foldl_max_le x l
    constructor
    · rcases foldl_max_mem x l with h | h
      · rw [h]
        exact List.mem_cons_self x l
      · exact List.mem_cons_of_mem x h
    · intro w hw
      rcases List.mem_cons.mp hw with h | h
      · rw [h]
        exact h1
      · exact h2 w h

/-- The derived-column invariant maintained by `createSession` and
`updateSession`: every stored `maxWeight` equals the maximum weight of
the sets owned by the row (NULL when the row owns no sets). -/
def maxWeightConsistent (st : Store) : Prop :=
  ∀ e ∈ st.workout_exercises,
    e.maxWeight = listMaxRat
      ((st.sets.filter (fun s => s.exerciseId = e.id)).map (fun s => s.weight))

/-- All weights of all sets belonging to the NOCASE-matching
exercises. -/
def matchingSetWeights (st : Store) (name : String) : List Rat :=
  (st.workout_exercises.filter (fun e => nocaseEq e.exerciseName name)).flatMap
    (fun e => (st.sets.filter (fun s => s.exerciseId = e.id)).map
      (fun s => s.weight))

/-- Maximum of the stored per-row maxima equals the maximum of the
underlying weights. -/
theorem listMaxRat_filterMap_flatMap {α : Type} (ws : List α)
    (wOf : α → List Rat) (mOf : α → Option Rat)
    (h : ∀ e ∈ ws, mOf e = listMaxRat (wOf e)) :
    listMaxRat (ws.filterMap mOf) = listMaxRat (ws.flatMap wOf) := by
  induction ws with
  | nil => rfl
  | cons e ws ih =>
    have he := h e (List.mem_cons_self e ws)
    have ih2 := ih (fun x hx => h x (List.mem_cons_of_mem e hx))
    simp only [List.filterMap_cons, List.flatMap_cons]
    rw [listMaxRat_append, ← ih2, ← he]
    cases hm : mOf e with
    | none => rfl
    | some x => exact listMaxRat_cons x _

/-- C4: under the derived-column invariant, `getPreviousMaxWeight` is
the optional maximum of all weights of all sets of all NOCASE-matching
exercises: absent when nothing matches (or no matching set exists),
and otherwise a weight of one of those sets bounding all of them. -/
theorem getPreviousMaxWeight_true_max (st : Store) (name : String)
    (hinv : maxWeightConsistent st) :
    getPreviousMaxWeight st name = listMaxRat (matchingSetWeights st name) ∧
    ((∀ e ∈ st.workout_exercises, ¬ nocaseEq e.exerciseName name) →
      getPreviousMaxWeight st name = none) ∧
    (∀ m, getPreviousMaxWeight st name = some m →
      m ∈ matchingSetWeights st name ∧
      ∀ w ∈ matchingSetWeights st name, w ≤ m) := by
  have hmain : getPreviousMaxWeight st name =
      listMaxRat (matchingSetWeights st name) := by
    unfold getPreviousMaxWeight matchingSetWeights
    apply listMaxRat_filterMap_flatMap
    intro e he
    exact hinv e (List.mem_filter.mp he).1
  refine ⟨hmain, ?_, ?_⟩
  · intro hnone
    unfold getPreviousMaxWeight
    have hfil : st.workout_exercises.filter
        (fun e => nocaseEq e.exerciseName name) = [] := by
      rw [List.filter_eq_nil_iff]
      intro a ha
      simpa using hnone a ha
    rw [hfil]
    rfl
  · intro m hm
    rw [hmain] at hm
    exact listMaxRat_is_max _ m hm

/-- The bench-press history scenario from the spec: two sessions, one
of them recorded with a lower-case name, with sets of 70, 75 and then
80, 82.5 kilograms. -/
def demoHistory : Store :=
  { Store.empty with
    workout_sessions := [⟨"s1", 100, none, 1, 1⟩, ⟨"s2", 200, none, 2, 2⟩],
    workout_exercises :=
      [⟨"we1", "s1", none, "Bench Press", "chest", some 75, 0⟩,
       ⟨"we2", "s2", none, "bench press", "chest", some (mkRat 165 2), 0⟩],
    sets :=
      [⟨"t1", "we1", 70, 10, 1, 0⟩, ⟨"t2", "we1", 75, 8, 1, 1⟩,
       ⟨"t3", "we2", 80, 10, 2, 0⟩, ⟨"t4", "we2", mkRat 165 2, 6, 2, 1⟩] }

/-- C4 witness: the spec scenario yields 82.5 as the true maximum,
matching the lower-case row case-insensitively. -/
theorem getPreviousMaxWeight_true_max_witness :
    getPreviousMaxWeight demoHistory "Bench Press" =
      listMaxRat (matchingSetWeights demoHistory "Bench Press") ∧
    getPreviousMaxWeight demoHistory "Bench Press" = some (mkRat 165 2) :=
  ⟨(getPreviousMaxWeight_true_max demoHistory "Bench Press"
      (by unfold maxWeightConsistent; decide)).1,
   by decide⟩

/-!
## C8: searchExercises wildcard handling
-/

/-- Unfolding: the empty pattern matches only the empty string. -/
theorem likeMatch_nil (s : List Char) : likeMatch [] s = s.isEmpty := by
  rw [likeMatch.eq_def]

/-- Unfolding: a leading `%` tries the rest of the pattern here or
consumes one character. -/
theorem likeMatch_percent (p s : List Char) :
    likeMatch ('%' :: p) s =
      (likeMatch p s || (match s with
        | [] => false
        | _ :: t => likeMatch ('%' :: p) t)) := by
  rw [likeMatch.eq_def]
  simp

/-- Unfolding: an escaped character matches one character literally
(under ASCII case folding). -/
theorem likeMatch_esc (c : Char) (p s : List Char) :
    likeMatch ('\\' :: c :: p) s =
      (match s with
       | [] => false
       | d :: s2 => (asciiLower c = asciiLower d) && likeMatch p s2) := by
  rw [likeMatch.eq_def]
  simp

/-- Unfolding: a plain character matches one character under ASCII
case folding. -/
theorem likeMatch_lit (c : Char) (p s : List Char) (h1 : ¬ c = '%')
    (h2 : ¬ c = '\\') (h3 : ¬ c = '_') :
    likeMatch (c :: p) s =
      (match s with
       | [] => false
       | d :: s2 => (asciiLower c = asciiLower d) && likeMatch p s2) := by
  rw [likeMatch.eq_def]
  simp only [if_neg h1, if_neg h2, if_neg h3]

/-- A leading `%` matches exactly the splits of the string. -/
theorem likeMatch_percent_iff (p : List Char) (s : List Char) :
    likeMatch ('%' :: p) s = true ↔
      ∃ a b, s = a ++ b ∧ likeMatch p b = true := by
  induction s with
  | nil =>
    rw [likeMatch_percent]
    simp only [Bool.or_eq_true]
    constructor
    · rintro (h | h)
      · exact ⟨[], [], rfl, h⟩
      · exact absurd h (by simp)
    · rintro ⟨a, b, hab, hb⟩
      obtain ⟨ha, hbnil⟩ := List.append_eq_nil.mp hab.symm
      subst ha
      subst hbnil
      exact Or.inl hb
  | cons c t ih =>
    rw [likeMatch_percent]
    simp only [Bool.or_eq_true]
    constructor
    · rintro (h | h)
      · exact ⟨[], c :: t, rfl, h⟩
      · obtain ⟨a, b, hab, hb⟩ := ih.mp h
        exact ⟨c :: a, b, by rw [List.cons_append, ← hab], hb⟩
    · rintro ⟨a, b, hab, hb⟩
      cases a with
      | nil =>
        rw [List.nil_append] at hab
        exact Or.inl (by rw [hab]; exact hb)
      | cons c2 a2 =>
        rw [List.cons_append] at hab
        injection hab with h1 h2
        exact Or.inr (ih.mpr ⟨a2, b, h2, hb⟩)

/-- The pattern `%` alone matches every string. -/
theorem likeMatch_percent_all (s : List Char) : likeMatch ['%'] s = true := by
  induction s with
  | nil =>
    rw [likeMatch_percent, likeMatch_nil]
    simp
  | cons c t ih =>
    rw [likeMatch_percent]
    simp only [Bool.or_eq_true]
    exact Or.inr ih

/-- One escaped-or-plain character of the escaped query consumes
exactly one character of the string, literally under case folding. -/
theorem escLike_step (c : Char) (q p s : List Char) :
    likeMatch (escLike (c :: q) ++ p) s =
      (match s with
       | [] => false
       | d :: s2 => (asciiLower c = asciiLower d) &&
           likeMatch (escLike q ++ p) s2) := by
  show likeMatch ((if c = '\\' ∨ c = '%' ∨ c = '_' then '\\' :: c :: escLike q
      else c :: escLike q) ++ p) s = _
  by_cases hc : c = '\\' ∨ c = '%' ∨ c = '_'
  · rw [if_pos hc]
    exact likeMatch_esc c (escLike q ++ p) s
  · rw [if_neg hc]
    push_neg at hc
    exact likeMatch_lit c (escLike q ++ p) s hc.2.1 hc.1 hc.2.2

/-- The escaped query matches exactly a literal case-folded copy of
itself, then hands over to the rest of the pattern. -/
theorem likeMatch_escLike_append (q : List Char) :
    ∀ p s, likeMatch (escLike q ++ p) s = true ↔
      ∃ a b, s = a ++ b ∧ a.map asciiLower = q.map asciiLower ∧
        likeMatch p b = true := by
  induction q with
  | nil =>
    intro p s
    simp only [escLike, List.nil_append, List.map_nil]
    constructor
    · intro h
      exact ⟨[], s, rfl, rfl, h⟩
    · rintro ⟨a, b, hab, hmap, hb⟩
      have ha : a = [] := List.map_eq_nil_iff.mp hmap
      subst ha
      rw [List.nil_append] at hab
      rw [hab]
      exact hb
  | cons c q ih =>
    intro p s
    rw [escLike_step]
    cases s with
    | nil =>
      constructor
      · intro h
        exact absurd h (by simp)
      · rintro ⟨a, b, hab, hmap, hb⟩
        obtain ⟨ha, hb2⟩ := List.append_eq_nil.mp hab.symm
        subst ha
        simp at hmap
    | cons d s2 =>
      simp only [Bool.and_eq_true, decide_eq_true_eq]
      constructor
      · rintro ⟨hcd, h⟩
        obtain ⟨a, b, hab, hmap, hb⟩ := (ih p s2).mp h
        refine ⟨d :: a, b, by rw [List.cons_append, hab], ?_, hb⟩
        simp only [List.map_cons, hmap, hcd]
      · rintro ⟨a, b, hab, hmap, hb⟩
        cases a with
        | nil => simp at hmap
        | cons a0 a2 =>
          rw [List.cons_append] at hab
          injection hab with h1 h2
          simp only [List.map_cons, List.cons.injEq] at hmap
          obtain ⟨hcd, hmap2⟩ := hmap
          subst h1
          exact ⟨hcd.symm, (ih p s2).mpr ⟨a2, b, h2, hmap2, hb⟩⟩

/-- The escaped search pattern matches exactly the strings containing
the query as a case-folded substring. -/
theorem searchPattern_iff (q name : List Char) :
    likeMatch ('%' :: (escLike q ++ ['%'])) name = true ↔
      ∃ pre post, name.map asciiLower =
        pre ++ q.map asciiLower ++ post := by
  rw [likeMatch_percent_iff]
  constructor
  · rintro ⟨a, b, hab, hb⟩
    obtain ⟨a2, b2, hb2, hmap, hlast⟩ :=
      (likeMatch_escLike_append q ['%'] b).mp hb
    subst hb2
    subst hab
    refine ⟨a.map asciiLower, b2.map asciiLower, ?_⟩
    simp [hmap]
  · rintro ⟨pre, post, hsplit⟩
    rw [List.append_assoc] at hsplit
    obtain ⟨n1, n2, hn, hn1, hn2⟩ :=
      List.append_eq_map_iff.mp hsplit.symm
    obtain ⟨n21, n22, hn2eq, hn21, hn22⟩ :=
      List.append_eq_map_iff.mp hn2.symm
    refine ⟨n1, n2, hn, ?_⟩
    exact (likeMatch_escLike_append q ['%'] n2).mpr
      ⟨n21, n22, hn2eq, by rw [hn21], likeMatch_percent_all n22⟩

/-- C8 (for the escaping implementation): `searchExercises` returns
exactly the library rows whose name contains the query as an
ASCII-case-insensitive substring — wildcard characters in the query
only match themselves — and the empty query returns the full
library. -/
theorem searchExercises_substring (st : Store) (query : String) :
    (∀ e, e ∈ searchExercises st query ↔
      e ∈ st.exercises ∧
      ∃ pre post, e.name.toList.map asciiLower =
        pre ++ query.toList.map asciiLower ++ post) ∧
    searchExercises st "" = st.exercises := by
  constructor
  · intro e
    unfold searchExercises searchPattern
    rw [List.mem_filter]
    constructor
    · rintro ⟨he, hm⟩
      exact ⟨he, (searchPattern_iff query.toList e.name.toList).mp hm⟩
    · rintro ⟨he, hm⟩
      exact ⟨he, (searchPattern_iff query.toList e.name.toList).mpr hm⟩
  · unfold searchExercises searchPattern
    rw [show ("" : String).toList = [] from rfl]
    apply List.filter_eq_self.mpr
    intro e he
    rw [show ('%' :: (escLike [] ++ ['%'])) = '%' :: ['%'] from rfl]
    exact (likeMatch_percent_iff ['%'] e.name.toList).mpr
      ⟨[], e.name.toList, rfl, likeMatch_percent_all e.name.toList⟩

/-- Unfolding for the no-escape matcher: leading `%`. -/
theorem likeMatchNoEsc_percent (p s : List Char) :
    likeMatchNoEsc ('%' :: p) s =
      (likeMatchNoEsc p s || (match s with
        | [] => false
        | _ :: t => likeMatchNoEsc ('%' :: p) t)) := by
  rw [likeMatchNoEsc.eq_def]
  simp

/-- The pattern `%` alone matches every string (no-escape matcher). -/
theorem likeMatchNoEsc_percent_all (s : List Char) :
    likeMatchNoEsc ['%'] s = true := by
  induction s with
  | nil =>
    rw [likeMatchNoEsc_percent]
    rw [show likeMatchNoEsc [] [] = true from by rw [likeMatchNoEsc.eq_def]; rfl]
    simp
  | cons c t ih =>
    rw [likeMatchNoEsc_percent]
    simp only [Bool.or_eq_true]
    exact Or.inr ih

/-- Prefixing `%` preserves matching everything (no-escape matcher). -/
theorem likeMatchNoEsc_percent_keep (p : List Char)
    (hp : ∀ s, likeMatchNoEsc p s = true) :
    ∀ s, likeMatchNoEsc ('%' :: p) s = true := by
  intro s
  rw [likeMatchNoEsc_percent]
  simp only [Bool.or_eq_true]
  exact Or.inl (hp s)

/-- A library store holding one exercise named abc. -/
def demoLibABC : Store :=
  { Store.empty with exercises := [⟨"exA", "abc", "other", none, 0, none⟩] }

/-- C8 counterexample: in `SqliteExerciseLibraryStorage.searchExercises`
the query is spliced unescaped into the LIKE pattern, so the query
consisting of a single `%` matches the name abc even though abc does
not contain `%` as a substring: the wildcard acts as a pattern
operator, not as a literal character. -/
theorem sqliteSearchExercises_wildcard_counterexample :
    sqliteSearchExercises demoLibABC "%" = demoLibABC.exercises ∧
    (∀ pre post, "abc".toList.map asciiLower ≠
      pre ++ "%".toList.map asciiLower ++ post) := by
  constructor
  · unfold sqliteSearchExercises sqliteSearchPattern
    apply List.filter_eq_self.mpr
    intro e he
    rw [show ('%' :: (("%" : String).toList ++ ['%'])) = ['%', '%', '%'] from rfl]
    exact likeMatchNoEsc_percent_keep ['%', '%']
      (likeMatchNoEsc_percent_keep ['%'] likeMatchNoEsc_percent_all)
      e.name.toList
  · intro pre post h
    have hmem : ('%' : Char) ∈ "abc".toList.map asciiLower := by
      rw [h]
      have hlow : asciiLower '%' = '%' := by decide
      simp [hlow]
    rw [show "abc".toList.map asciiLower = ['a', 'b', 'c'] from by decide] at hmem
    exact absurd hmem (by decide)

/-!
## C2: single-flight initialization
-/

/-- C2 counterexample: one `getConnection` caller starts the
single-flight initialization, but an overlapping direct `initialize`
call consults only the `isInitialized` flag, never the stored
in-flight promise, so the store is opened a second time. -/
theorem initialize_single_flight_counterexample :
    (mgrRun (mgrInit (fun n => if n = 0 then CallKind.getConn
      else CallKind.initCall)) [0, 1]).openCount = 2 := rfl

/-- A caller is in the owner region: it holds the in-flight promise. -/
def ownerAt (p : CPc) : Prop :=
  p = CPc.ownConn ∨ p = CPc.ownPost ∨ p = CPc.ownFin

/-- Inductive invariant of the manager under getConnection-only
concurrency. -/
structure MgrInv (s : MgrState) : Prop where
  openLe : s.openCount ≤ 1
  openZero : s.openCount = 0 ↔ (s.prom = false ∧ s.dbSet = false)
  dbInit : s.dbSet = true → s.prom = false → s.isInit = true
  initDb : s.isInit = true → s.dbSet = true
  doneInit : s.initDone = true → s.isInit = true
  ownerProm : ∀ i, ownerAt (s.pc i) → s.prom = true
  ownPostDb : ∀ i, s.pc i = CPc.ownPost → s.dbSet = true
  ownFinDb : ∀ i, s.pc i = CPc.ownFin → s.dbSet = true ∧ s.isInit = true
  noFail : ∀ i, s.pc i ≠ CPc.failed
  doneDb : ∀ i, s.pc i = CPc.done → s.dbSet = true
  ownerUnique : ∀ i j, ownerAt (s.pc i) → ownerAt (s.pc j) → i = j

/-- A step never changes the caller kinds. -/
theorem mgrStep_kind (s : MgrState) (i : Nat) :
    (mgrStep s i).kind = s.kind := by
  unfold mgrStep
  cases hk2 : s.kind i <;> cases hp : s.pc i <;>
    · dsimp only [MgrState.setPc]
      repeat' split
      all_goals rfl

/-- The invariant at the initial state. -/
theorem mgrInit_inv (kind : Nat → CallKind) : MgrInv (mgrInit kind) := by
  refine ⟨?_, ?_, ?_, ?_, ?_, ?_, ?_, ?_, ?_, ?_, ?_⟩ <;>
    simp [mgrInit, ownerAt]

/-- One getConnection step preserves the invariant. -/
theorem mgrStep_inv (s : MgrState) (i : Nat)
    (hk : ∀ j, s.kind j = CallKind.getConn) (h : MgrInv s) :
    MgrInv (mgrStep s i) := by
  unfold mgrStep
  rw [hk i]
  cases hp : s.pc i with
  | start =>
    dsimp only [MgrState.setPc]
    by_cases h1 : (s.dbSet && s.isInit) = true
    · rw [if_pos h1]
      simp only [Bool.and_eq_true] at h1
      refine ⟨h.openLe, h.openZero, h.dbInit, h.initDb, h.doneInit,
        ?_, ?_, ?_, ?_, ?_, ?_⟩
      · dsimp only
        intro j hj
        rw [Function.update_apply] at hj
        by_cases hji : j = i
        · rw [if_pos hji] at hj
          rcases hj with hj | hj | hj <;> exact absurd hj (by simp)
        · rw [if_neg hji] at hj
          exact h.ownerProm j hj
      · dsimp only
        intro j hj
        rw [Function.update_apply] at hj
        by_cases hji : j = i
        · rw [if_pos hji] at hj
          exact absurd hj (by simp)
        · rw [if_neg hji] at hj
          exact h.ownPostDb j hj
      · dsimp only
        intro j hj
        rw [Function.update_apply] at hj
        by_cases hji : j = i
        · rw [if_pos hji] at hj
          exact absurd hj (by simp)
        · rw [if_neg hji] at hj
          exact h.ownFinDb j hj
      · dsimp only
        intro j
        rw [Function.update_apply]
        by_cases hji : j = i
        · rw [if_pos hji]
          simp
        · rw [if_neg hji]
          exact h.noFail j
      · dsimp only
        intro j hj
        rw [Function.update_apply] at hj
        by_cases hji : j = i
        · rw [if_pos hji] at hj
          exact h1.1
        · rw [if_neg hji] at hj
          exact h.doneDb j hj
      · dsimp only
        intro j k hj hk2
        rw [Function.update_apply] at hj hk2
        by_cases hji : j = i
        · by_cases hki : k = i
          · rw [hji, hki]
          · rw [if_pos hji] at hj
            rw [if_neg hki] at hk2
            rcases hj with hj | hj | hj <;> exact absurd hj (by simp)
        · rw [if_neg hji] at hj
          by_cases hki : k = i
          · rw [if_pos hki] at hk2
            rcases hk2 with hk2 | hk2 | hk2 <;> exact absurd hk2 (by simp)
          · rw [if_neg hki] at hk2
            exact h.ownerUnique j k hj hk2
    · rw [if_neg h1]
      by_cases hprb : s.prom = true
      · rw [if_pos hprb]
        refine ⟨h.openLe, h.openZero, h.dbInit, h.initDb, h.doneInit,
          ?_, ?_, ?_, ?_, ?_, ?_⟩
        · dsimp only
          intro j hj
          rw [Function.update_apply] at hj
          by_cases hji : j = i
          · rw [if_pos hji] at hj
            rcases hj with hj | hj | hj <;> exact absurd hj (by simp)
          · rw [if_neg hji] at hj
            exact h.ownerProm j hj
        · dsimp only
          intro j hj
          rw [Function.update_apply] at hj
          by_cases hji : j = i
          · rw [if_pos hji] at hj
            exact absurd hj (by simp)
          · rw [if_neg hji] at hj
            exact h.ownPostDb j hj
        · dsimp only
          intro j hj
          rw [Function.update_apply] at hj
          by_cases hji : j = i
          · rw [if_pos hji] at hj
            exact absurd hj (by simp)
          · rw [if_neg hji] at hj
            exact h.ownFinDb j hj
        · dsimp only
          intro j
          rw [Function.update_apply]
          by_cases hji : j = i
          · rw [if_pos hji]
            simp
          · rw [if_neg hji]
            exact h.noFail j
        · dsimp only
          intro j hj
          rw [Function.update_apply] at hj
          by_cases hji : j = i
          · rw [if_pos hji] at hj
            exact absurd hj (by simp)
          · rw [if_neg hji] at hj
            exact h.doneDb j hj
        · dsimp only
          intro j k hj hk2
          rw [Function.update_apply] at hj hk2
          by_cases hji : j = i
          · by_cases hki : k = i
            · rw [hji, hki]
            · rw [if_pos hji] at hj
              rw [if_neg hki] at hk2
              rcases hj with hj | hj | hj <;> exact absurd hj (by simp)
          · rw [if_neg hji] at hj
            by_cases hki : k = i
            · rw [if_pos hki] at hk2
              rcases hk2 with hk2 | hk2 | hk2 <;> exact absurd hk2 (by simp)
            · rw [if_neg hki] at hk2
              exact h.ownerUnique j k hj hk2
      · rw [if_neg hprb]
        have hpr : s.prom = false := by
          simpa using hprb
        have hdb : s.dbSet = false := by
          cases hdb2 : s.dbSet
          · rfl
          · have hi := h.dbInit hdb2 hpr
            exact absurd (by rw [hdb2, hi]; rfl : (s.dbSet && s.isInit) = true) h1
        have hzero : s.openCount = 0 := h.openZero.mpr ⟨hpr, hdb⟩
        refine ⟨by dsimp only; omega, ?_, ?_, ?_, h.doneInit, ?_, ?_, ?_, ?_, ?_, ?_⟩
        · dsimp only
          constructor
          · intro h0
            omega
          · rintro ⟨hco, _⟩
            exact absurd hco (by simp)
        · dsimp only
          intro _ hco
          exact absurd hco (by simp)
        · dsimp only
          intro hi
          exact h.initDb hi
        · dsimp only
          intro j _
          rfl
        · dsimp only
          intro j hj
          rw [Function.update_apply] at hj
          by_cases hji : j = i
          · rw [if_pos hji] at hj
            exact absurd hj (by simp)
          · rw [if_neg hji] at hj
            have hop := h.ownerProm j (Or.inr (Or.inl hj))
            rw [hpr] at hop
            exact absurd hop (by simp)
        · dsimp only
          intro j hj
          rw [Function.update_apply] at hj
          by_cases hji : j = i
          · rw [if_pos hji] at hj
            exact absurd hj (by simp)
          · rw [if_neg hji] at hj
            have hop := h.ownerProm j (Or.inr (Or.inr hj))
            rw [hpr] at hop
            exact absurd hop (by simp)
        · dsimp only
          intro j
          rw [Function.update_apply]
          by_cases hji : j = i
          · rw [if_pos hji]
            simp
          · rw [if_neg hji]
            exact h.noFail j
        · dsimp only
          intro j hj
          rw [Function.update_apply] at hj
          by_cases hji : j = i
          · rw [if_pos hji] at hj
            exact absurd hj (by simp)
          · rw [if_neg hji] at hj
            have hop := h.doneDb j hj
            rw [hdb] at hop
            exact absurd hop (by simp)
        · dsimp only
          intro j k hj hk2
          rw [Function.update_apply] at hj hk2
          by_cases hji : j = i
          · by_cases hki : k = i
            · rw [hji, hki]
            · rw [if_pos hji] at hj
              rw [if_neg hki] at hk2
              have hop := h.ownerProm k hk2
              rw [hpr] at hop
              exact absurd hop (by simp)
          · rw [if_neg hji] at hj
            by_cases hki : k = i
            · rw [if_pos hki] at hk2
              have hop := h.ownerProm j hj
              rw [hpr] at hop
              exact absurd hop (by simp)
            · rw [if_neg hki] at hk2
              have hop := h.ownerProm j hj
              rw [hpr] at hop
              exact absurd hop (by simp)
  | waiting =>
    dsimp only [MgrState.setPc]
    by_cases hdone : s.initDone = true
    · rw [if_pos hdone]
      have hinit := h.doneInit hdone
      have hdb := h.initDb hinit
      have hred : (if s.dbSet = true then CPc.done else CPc.failed) = CPc.done := by
        simp [hdb]
      rw [hred]
      refine ⟨h.openLe, h.openZero, h.dbInit, h.initDb, h.doneInit,
        ?_, ?_, ?_, ?_, ?_, ?_⟩
      · dsimp only
        intro j hj
        rw [Function.update_apply] at hj
        by_cases hji : j = i
        · rw [if_pos hji] at hj
          rcases hj with hj | hj | hj <;> exact absurd hj (by simp)
        · rw [if_neg hji] at hj
          exact h.ownerProm j hj
      · dsimp only
        intro j hj
        rw [Function.update_apply] at hj
        by_cases hji : j = i
        · rw [if_pos hji] at hj
          exact absurd hj (by simp)
        · rw [if_neg hji] at hj
          exact h.ownPostDb j hj
      · dsimp only
        intro j hj
        rw [Function.update_apply] at hj
        by_cases hji : j = i
        · rw [if_pos hji] at hj
          exact absurd hj (by simp)
        · rw [if_neg hji] at hj
          exact h.ownFinDb j hj
      · dsimp only
        intro j
        rw [Function.update_apply]
        by_cases hji : j = i
        · rw [if_pos hji]
          simp
        · rw [if_neg hji]
          exact h.noFail j
      · dsimp only
        intro j hj
        rw [Function.update_apply] at hj
        by_cases hji : j = i
        · rw [if_pos hji] at hj
          exact hdb
        · rw [if_neg hji] at hj
          exact h.doneDb j hj
      · dsimp only
        intro j k hj hk2
        rw [Function.update_apply] at hj hk2
        by_cases hji : j = i
        · by_cases hki : k = i
          · rw [hji, hki]
          · rw [if_pos hji] at hj
            rw [if_neg hki] at hk2
            rcases hj with hj | hj | hj <;> exact absurd hj (by simp)
        · rw [if_neg hji] at hj
          by_cases hki : k = i
          · rw [if_pos hki] at hk2
            rcases hk2 with hk2 | hk2 | hk2 <;> exact absurd hk2 (by simp)
          · rw [if_neg hki] at hk2
            exact h.ownerUnique j k hj hk2
    · rw [if_neg hdone]
      exact h
  | ownConn =>
    dsimp only [MgrState.setPc]
    have hpr : s.prom = true := h.ownerProm i (Or.inl hp)
    have hne : s.openCount ≠ 0 := by
      intro h0
      have h2 := (h.openZero.mp h0).1
      rw [hpr] at h2
      exact absurd h2 (by simp)
    refine ⟨h.openLe, ?_, ?_, ?_, h.doneInit, ?_, ?_, ?_, ?_, ?_, ?_⟩
    · dsimp only
      constructor
      · intro h0
        exact absurd h0 hne
      · rintro ⟨_, hco⟩
        exact absurd hco (by simp)
    · dsimp only
      intro _ hco
      rw [hpr] at hco
      exact absurd hco (by simp)
    · dsimp only
      intro _
      rfl
    · dsimp only
      intro j _
      exact hpr
    · dsimp only
      intro j _
      rfl
    · dsimp only
      intro j hj
      rw [Function.update_apply] at hj
      by_cases hji : j = i
      · rw [if_pos hji] at hj
        exact absurd hj (by simp)
      · rw [if_neg hji] at hj
        exact absurd (h.ownerUnique j i (Or.inr (Or.inr hj)) (Or.inl hp)) hji
    · dsimp only
      intro j
      rw [Function.update_apply]
      by_cases hji : j = i
      · rw [if_pos hji]
        simp
      · rw [if_neg hji]
        exact h.noFail j
    · dsimp only
      intro j _
      rfl
    · dsimp only
      intro j k hj hk2
      rw [Function.update_apply] at hj hk2
      by_cases hji : j = i
      · by_cases hki : k = i
        · rw [hji, hki]
        · rw [if_pos hji] at hj
          rw [if_neg hki] at hk2
          exact absurd (h.ownerUnique k i hk2 (Or.inl hp)) hki
      · rw [if_neg hji] at hj
        by_cases hki : k = i
        · rw [if_pos hki] at hk2
          exact absurd (h.ownerUnique j i hj (Or.inl hp)) hji
        · rw [if_neg hki] at hk2
          exact absurd (h.ownerUnique j i hj (Or.inl hp)) hji
  | ownPost =>
    dsimp only [MgrState.setPc]
    have hpr : s.prom = true := h.ownerProm i (Or.inr (Or.inl hp))
    have hdb := h.ownPostDb i hp
    have hne : s.openCount ≠ 0 := by
      intro h0
      have h2 := (h.openZero.mp h0).1
      rw [hpr] at h2
      exact absurd h2 (by simp)
    refine ⟨h.openLe, ?_, ?_, ?_, ?_, ?_, ?_, ?_, ?_, ?_, ?_⟩
    · dsimp only
      constructor
      · intro h0
        exact absurd h0 hne
      · rintro ⟨hco, _⟩
        rw [hpr] at hco
        exact absurd hco (by simp)
    · dsimp only
      intro _ _
      rfl
    · dsimp only
      intro _
      exact hdb
    · dsimp only
      intro _
      rfl
    · dsimp only
      intro j _
      exact hpr
    · dsimp only
      intro j hj
      rw [Function.update_apply] at hj
      by_cases hji : j = i
      · rw [if_pos hji] at hj
        exact absurd hj (by simp)
      · rw [if_neg hji] at hj
        exact absurd (h.ownerUnique j i (Or.inr (Or.inl hj)) (Or.inr (Or.inl hp))) hji
    · dsimp only
      intro j hj
      rw [Function.update_apply] at hj
      by_cases hji : j = i
      · rw [if_pos hji] at hj
        exact ⟨hdb, rfl⟩
      · rw [if_neg hji] at hj
        exact absurd (h.ownerUnique j i (Or.inr (Or.inr hj)) (Or.inr (Or.inl hp))) hji
    · dsimp only
      intro j
      rw [Function.update_apply]
      by_cases hji : j = i
      · rw [if_pos hji]
        simp
      · rw [if_neg hji]
        exact h.noFail j
    · dsimp only
      intro j hj
      rw [Function.update_apply] at hj
      by_cases hji : j = i
      · rw [if_pos hji] at hj
        exact hdb
      · rw [if_neg hji] at hj
        exact h.doneDb j hj
    · dsimp only
      intro j k hj hk2
      rw [Function.update_apply] at hj hk2
      by_cases hji : j = i
      · by_cases hki : k = i
        · rw [hji, hki]
        · rw [if_pos hji] at hj
          rw [if_neg hki] at hk2
          exact absurd (h.ownerUnique k i hk2 (Or.inr (Or.inl hp))) hki
      · rw [if_neg hji] at hj
        by_cases hki : k = i
        · rw [if_pos hki] at hk2
          exact absurd (h.ownerUnique j i hj (Or.inr (Or.inl hp))) hji
        · rw [if_neg hki] at hk2
          exact absurd (h.ownerUnique j i hj (Or.inr (Or.inl hp))) hji
  | ownFin =>
    dsimp only [MgrState.setPc]
    obtain ⟨hdb, hinit⟩ := h.ownFinDb i hp
    have hpr : s.prom = true := h.ownerProm i (Or.inr (Or.inr hp))
    have hne : s.openCount ≠ 0 := by
      intro h0
      have h2 := (h.openZero.mp h0).1
      rw [hpr] at h2
      exact absurd h2 (by simp)
    have hred : (if s.dbSet = true then CPc.done else CPc.failed) = CPc.done := by
      simp [hdb]
    rw [hred]
    refine ⟨h.openLe, ?_, ?_, ?_, h.doneInit, ?_, ?_, ?_, ?_, ?_, ?_⟩
    · dsimp only
      constructor
      · intro h0
        exact absurd h0 hne
      · rintro ⟨_, hco⟩
        rw [hdb] at hco
        exact absurd hco (by simp)
    · dsimp only
      intro _ _
      exact hinit
    · dsimp only
      intro _
      exact hdb
    · dsimp only
      intro j hj
      rw [Function.update_apply] at hj
      by_cases hji : j = i
      · rw [if_pos hji] at hj
        rcases hj with hj | hj | hj <;> exact absurd hj (by simp)
      · rw [if_neg hji] at hj
        exact absurd (h.ownerUnique j i hj (Or.inr (Or.inr hp))) hji
    · dsimp only
      intro j hj
      rw [Function.update_apply] at hj
      by_cases hji : j = i
      · rw [if_pos hji] at hj
        exact absurd hj (by simp)
      · rw [if_neg hji] at hj
        exact absurd (h.ownerUnique j i (Or.inr (Or.inl hj)) (Or.inr (Or.inr hp))) hji
    · dsimp only
      intro j hj
      rw [Function.update_apply] at hj
      by_cases hji : j = i
      · rw [if_pos hji] at hj
        exact absurd hj (by simp)
      · rw [if_neg hji] at hj
        exact absurd (h.ownerUnique j i (Or.inr (Or.inr hj)) (Or.inr (Or.inr hp))) hji
    · dsimp only
      intro j
      rw [Function.update_apply]
      by_cases hji : j = i
      · rw [if_pos hji]
        simp
      · rw [if_neg hji]
        exact h.noFail j
    · dsimp only
      intro j _
      exact hdb
    · dsimp only
      intro j k hj hk2
      rw [Function.update_apply] at hj hk2
      by_cases hji : j = i
      · by_cases hki : k = i
        · rw [hji, hki]
        · rw [if_pos hji] at hj
          rw [if_neg hki] at hk2
          rcases hj with hj | hj | hj <;> exact absurd hj (by simp)
      · rw [if_neg hji] at hj
        by_cases hki : k = i
        · rw [if_pos hki] at hk2
          rcases hk2 with hk2 | hk2 | hk2 <;> exact absurd hk2 (by simp)
        · rw [if_neg hki] at hk2
          exact absurd (h.ownerUnique j i hj (Or.inr (Or.inr hp))) hji
  | dirConn => exact h
  | dirPost => exact h
  | done => exact h
  | failed => exact h


/-- The invariant holds after any schedule of getConnection callers. -/
theorem mgrRun_inv (sched : List Nat) :
    ∀ s : MgrState, MgrInv s → (∀ j, s.kind j = CallKind.getConn) →
      MgrInv (mgrRun s sched) := by
  induction sched with
  | nil =>
    intro s h _
    exact h
  | cons i sched ih =>
    intro s h hk
    have hkind : ∀ j, (mgrStep s i).kind j = CallKind.getConn := by
      intro j
      rw [mgrStep_kind]
      exact hk j
    exact ih (mgrStep s i) (mgrStep_inv s i hk h) hkind

/-- C2 amended: under any interleaving of overlapping `getConnection`
callers on an uninitialized manager, at most one store open ever
happens, no caller fails, and every caller that completed holds a
working handle with exactly one open on record. -/
theorem getConnection_single_flight (kind : Nat → CallKind)
    (hk : ∀ i, kind i = CallKind.getConn) (sched : List Nat) :
    (mgrRun (mgrInit kind) sched).openCount ≤ 1 ∧
    (∀ i, (mgrRun (mgrInit kind) sched).pc i ≠ CPc.failed) ∧
    (∀ i, (mgrRun (mgrInit kind) sched).pc i = CPc.done →
      (mgrRun (mgrInit kind) sched).openCount = 1 ∧
      (mgrRun (mgrInit kind) sched).dbSet = true) := by
  have hinv := mgrRun_inv sched (mgrInit kind) (mgrInit_inv kind) (fun j => hk j)
  refine ⟨hinv.openLe, hinv.noFail, ?_⟩
  intro i hdone
  have hdb := hinv.doneDb i hdone
  have hne : (mgrRun (mgrInit kind) sched).openCount ≠ 0 := by
    intro h0
    have h2 := (hinv.openZero.mp h0).2
    rw [hdb] at h2
    exact absurd h2 (by simp)
  have hle := hinv.openLe
  exact ⟨by omega, hdb⟩

/-- C2 witness: three concurrent getConnection callers driven to
completion by a concrete schedule open the store exactly once and all
hold the handle. -/
theorem getConnection_single_flight_witness :
    (mgrRun (mgrInit (fun _ => CallKind.getConn))
      [0, 1, 2, 0, 0, 0, 1, 2]).openCount ≤ 1 ∧
    (mgrRun (mgrInit (fun _ => CallKind.getConn))
      [0, 1, 2, 0, 0, 0, 1, 2]).openCount = 1 ∧
    (mgrRun (mgrInit (fun _ => CallKind.getConn))
      [0, 1, 2, 0, 0, 0, 1, 2]).dbSet = true :=
  ⟨(getConnection_single_flight (fun _ => CallKind.getConn) (fun _ => rfl)
      [0, 1, 2, 0, 0, 0, 1, 2]).1,
   (getConnection_single_flight (fun _ => CallKind.getConn) (fun _ => rfl)
      [0, 1, 2, 0, 0, 0, 1, 2]).2.2 1 (by rfl)⟩

/-!
## C9: export/import round trip
-/

/-- Timestamps decode back from their JSON encoding. -/
theorem jNat?_encode (n : Nat) : jNat? (.jnum (n : Rat)) = some n := by
  simp [jNat?, Rat.den_natCast, Rat.num_natCast]

/-- Integers decode back from their JSON encoding. -/
theorem jInt?_encode (n : Int) : jInt? (.jnum (n : Rat)) = some n := by
  simp [jInt?, Rat.den_intCast, Rat.num_intCast]

/-- Session rows decode back from their encoding. -/
theorem decodeSessionRow_encode (r : SessionRow) :
    decodeSessionRow (encodeSessionRow r) = some r := by
  obtain ⟨id, date, tt, ca, ua⟩ := r
  cases tt with
  | none =>
    simp [encodeSessionRow, decodeSessionRow, jOpt, jOpt?, jStr?,
      jNat?_encode, Option.bind]
  | some t =>
    simp [encodeSessionRow, decodeSessionRow, jOpt, jOpt?, jStr?,
      jNat?_encode, jInt?_encode, Option.bind]

/-- Workout-exercise rows decode back from their encoding. -/
theorem decodeWorkoutExerciseRow_encode (r : WorkoutExerciseRow) :
    decodeWorkoutExerciseRow (encodeWorkoutExerciseRow r) = some r := by
  obtain ⟨id, sid, eid, name, bp, mw, od⟩ := r
  cases eid <;> cases mw <;>
    simp [encodeWorkoutExerciseRow, decodeWorkoutExerciseRow, jOpt, jOpt?,
      jStr?, jRat?, jNat?_encode, jInt?_encode, Option.bind]

/-- Set rows decode back from their encoding. -/
theorem decodeSetRow_encode (r : SetRow) :
    decodeSetRow (encodeSetRow r) = some r := by
  obtain ⟨id, eid, w, reps, ca, od⟩ := r
  simp [encodeSetRow, decodeSetRow, jStr?, jRat?, jNat?_encode,
    jInt?_encode, Option.bind]

/-- Library rows decode back from their encoding. -/
theorem decodeExerciseRow_encode (r : ExerciseRow) :
    decodeExerciseRow (encodeExerciseRow r) = some r := by
  obtain ⟨id, name, bp, url, ca, lu⟩ := r
  cases url <;> cases lu <;>
    simp [encodeExerciseRow, decodeExerciseRow, jOpt, jOpt?, jStr?,
      jNat?_encode, Option.bind]

/-- Schema-version rows decode back from their encoding. -/
theorem decodeVersionRow_encode (r : Nat × Nat) :
    decodeVersionRow (encodeVersionRow r) = some r := by
  obtain ⟨v, t⟩ := r
  simp [encodeVersionRow, decodeVersionRow, jNat?_encode, Option.bind]

/-- Elementwise decoding inverts elementwise encoding. -/
theorem decodeList_map {α : Type} (f : JValue → Option α) (g : α → JValue)
    (h : ∀ a, f (g a) = some a) (l : List α) :
    decodeList f (l.map g) = some l := by
  induction l with
  | nil => rfl
  | cons a l ih =>
    simp only [List.map_cons, decodeList, h a, ih]

/-- C9: the backup document round-trips: importing the export of any
store into a freshly cleared store (through `importFromJson`, which
parses, opens the transaction, runs the structural import and commits)
reproduces the same sessions, exercises, sets, library entries and
schema versions, id for id and field for field. -/
theorem exportImport_roundTrip (st : Store) :
    importDoc (exportDoc st) = some st ∧
    (importFromJson ⟨Store.empty, none⟩ none
      (importDocOp (exportDoc st))).1.2.committed = st := by
  have hmain : importDoc (exportDoc st) = some st := by
    obtain ⟨ss, we, se, ex, sv⟩ := st
    simp only [exportDoc, importDoc, jLookup, List.find?]
    norm_num
    simp only [decodeTable, jLookup, List.find?]
    norm_num
    simp [decodeList_map decodeSessionRow encodeSessionRow decodeSessionRow_encode,
      decodeList_map decodeWorkoutExerciseRow encodeWorkoutExerciseRow
        decodeWorkoutExerciseRow_encode,
      decodeList_map decodeSetRow encodeSetRow decodeSetRow_encode,
      decodeList_map decodeExerciseRow encodeExerciseRow decodeExerciseRow_encode,
      decodeList_map decodeVersionRow encodeVersionRow decodeVersionRow_encode,
      Option.bind]
  refine ⟨hmain, ?_⟩
  unfold importFromJson importDocOp
  rw [hmain]
  rfl
